import Mathlib

/-!
# Verification of the Market Analytics & Decision-Context Assembly Pipeline

Shallow embedding of `src/ai/prompt_builder.py` (class `PromptBuilder`) and the
precision-map construction of `src/main.py`.  Python floats are modelled as exact
rationals extended with the IEEE special values (`PF` below); arithmetic that the
source performs on pandas Series follows numpy semantics (division by zero yields
±inf or NaN, it does not raise).  The only operation that has no exact rational
counterpart — the floating-point square root used by `Series.std()` — is passed in
as an explicit function parameter, and every theorem proved about Bollinger output
holds for an arbitrary such function.
-/

set_option maxRecDepth 100000

unseal List.merge List.mergeSort

attribute [local semireducible] Rat.mul Rat.add Rat.sub Rat.inv Rat.ofScientific

namespace TradingBot

/-- A Python float: an exact rational, `+inf`, `-inf`, or `NaN`.
Binary rounding error is outside the model: finite float arithmetic is
modelled as exact rational arithmetic. -/
inductive PF where
  | fin (q : ℚ)
  | pinf
  | ninf
  | nan
deriving DecidableEq, Repr

namespace PF

def isFinite : PF → Bool
  | fin _ => true
  | _ => false

def isNaN : PF → Bool
  | nan => true
  | _ => false

/-- numpy/pandas addition on float values. -/
def add : PF → PF → PF
  | fin a, fin b => fin (a + b)
  | fin _, pinf => pinf
  | fin _, ninf => ninf
  | pinf, fin _ => pinf
  | ninf, fin _ => ninf
  | pinf, pinf => pinf
  | ninf, ninf => ninf
  | pinf, ninf => nan
  | ninf, pinf => nan
  | nan, _ => nan
  | _, nan => nan

/-- numpy/pandas subtraction on float values. -/
def sub : PF → PF → PF
  | fin a, fin b => fin (a - b)
  | fin _, pinf => ninf
  | fin _, ninf => pinf
  | pinf, fin _ => pinf
  | ninf, fin _ => ninf
  | pinf, ninf => pinf
  | ninf, pinf => ninf
  | pinf, pinf => nan
  | ninf, ninf => nan
  | nan, _ => nan
  | _, nan => nan

/-- numpy/pandas multiplication (only the cases the pipeline exercises:
multiplying by a positive finite constant). -/
def mul : PF → PF → PF
  | fin a, fin b => fin (a * b)
  | fin a, pinf => if a > 0 then pinf else if a < 0 then ninf else nan
  | fin a, ninf => if a > 0 then ninf else if a < 0 then pinf else nan
  | pinf, fin b => if b > 0 then pinf else if b < 0 then ninf else nan
  | ninf, fin b => if b > 0 then ninf else if b < 0 then pinf else nan
  | pinf, pinf => pinf
  | ninf, ninf => pinf
  | pinf, ninf => ninf
  | ninf, pinf => ninf
  | nan, _ => nan
  | _, nan => nan

/-- numpy/pandas division: `x/0` is `±inf` for `x ≠ 0` and `NaN` for `0/0`
(pandas emits a warning, not an exception). -/
def div : PF → PF → PF
  | fin a, fin b =>
      if b = 0 then (if a = 0 then nan else if a > 0 then pinf else ninf)
      else fin (a / b)
  | fin _, pinf => fin 0
  | fin _, ninf => fin 0
  | pinf, fin b => if b < 0 then ninf else pinf
  | ninf, fin b => if b < 0 then pinf else ninf
  | pinf, pinf => nan
  | pinf, ninf => nan
  | ninf, pinf => nan
  | ninf, ninf => nan
  | nan, _ => nan
  | _, nan => nan

/-- IEEE `≤` (false whenever either side is NaN). -/
def le : PF → PF → Bool
  | fin a, fin b => a ≤ b
  | fin _, pinf => true
  | fin _, ninf => false
  | pinf, fin _ => false
  | ninf, fin _ => true
  | pinf, pinf => true
  | ninf, ninf => true
  | ninf, pinf => true
  | pinf, ninf => false
  | nan, _ => false
  | _, nan => false

/-- IEEE `<` (false whenever either side is NaN). -/
def lt : PF → PF → Bool
  | fin a, fin b => a < b
  | fin _, pinf => true
  | fin _, ninf => false
  | pinf, fin _ => false
  | ninf, fin _ => true
  | pinf, pinf => false
  | ninf, ninf => false
  | ninf, pinf => true
  | pinf, ninf => false
  | nan, _ => false
  | _, nan => false

def toQ : PF → ℚ
  | fin q => q
  | _ => 0

end PF

/-- `round` to an integer with Python's round-half-to-even tie-breaking. -/
def roundHalfEven (q : ℚ) : ℤ :=
  let f : ℤ := ⌊q⌋
  let r : ℚ := q - f
  if r < 1/2 then f
  else if r > 1/2 then f + 1
  else if f % 2 = 0 then f else f + 1

/-- Python `round(x, n)` on a finite value, modelled exactly on the rational. -/
def pyRound (q : ℚ) (n : ℤ) : ℚ :=
  (roundHalfEven (q * (10 : ℚ) ^ n) : ℚ) / (10 : ℚ) ^ n

/-- Python `round(float, n)`: NaN rounds to NaN (no exception), infinities raise
`OverflowError`.  `roundPF` is the caught version used by `_round`/`_round_price`/
`_round_qty`, whose `except` clauses turn that `OverflowError` (and any other
failure) into `0.0`. -/
def roundPF : PF → ℤ → PF
  | .fin q, n => .fin (pyRound q n)
  | .nan, _ => .nan
  | .pinf, _ => .fin 0   -- round(inf) raises OverflowError, caught by the caller
  | .ninf, _ => .fin 0

/-! ## Numeric string parsing

Shared grammar of Python `float()` and `decimal.Decimal()` for finite numbers:
optional sign, digits with an optional decimal point (at least one digit overall),
and an optional exponent part.  Surrounding whitespace is stripped by both.
(Underscore digit separators, accepted by both since Python 3.6, are not modelled;
no claim exercises them.) -/

def digitsToNat (ds : List Char) : ℕ :=
  ds.foldl (fun a c => a * 10 + (c.toNat - 48)) 0

/-- Parse the body of a finite decimal literal: returns
`(negative, coefficient, exponent)` so that the value is
`(-1)^neg * coefficient * 10^exponent`, and the exponent equals the
`as_tuple().exponent` that `decimal.Decimal` reports for the same string. -/
def parseFinite (cs : List Char) : Option (Bool × ℕ × ℤ) :=
  let (neg, cs) :=
    match cs with
    | '+' :: t => (false, t)
    | '-' :: t => (true, t)
    | t => (false, t)
  let intDs := cs.takeWhile Char.isDigit
  let cs := cs.dropWhile Char.isDigit
  let (fracDs, cs) :=
    match cs with
    | '.' :: t => (t.takeWhile Char.isDigit, t.dropWhile Char.isDigit)
    | t => ([], t)
  if intDs.isEmpty && fracDs.isEmpty then none
  else
    match cs with
    | [] => some (neg, digitsToNat (intDs ++ fracDs), -(fracDs.length : ℤ))
    | e :: t =>
      if e = 'e' || e = 'E' then
        let (eneg, t) :=
          match t with
          | '+' :: t2 => (false, t2)
          | '-' :: t2 => (true, t2)
          | t2 => (false, t2)
        let eDs := t.takeWhile Char.isDigit
        let t := t.dropWhile Char.isDigit
        if eDs.isEmpty || !t.isEmpty then none
        else
          let ev : ℤ := if eneg then -(digitsToNat eDs : ℤ) else (digitsToNat eDs : ℤ)
          some (neg, digitsToNat (intDs ++ fracDs), ev - (fracDs.length : ℤ))
      else none

def stripWs (s : String) : List Char :=
  (s.toList.dropWhile Char.isWhitespace).reverse.dropWhile Char.isWhitespace |>.reverse

/-- The rational value denoted by a parsed finite literal. -/
def finiteVal (neg : Bool) (coeff : ℕ) (exp : ℤ) : ℚ :=
  (if neg then -(coeff : ℚ) else (coeff : ℚ)) * (10 : ℚ) ^ exp

/-- Python `float(s)` on a string: finite grammar above plus the special
spellings of infinity and NaN (case-insensitive, optionally signed). -/
def pyFloatOfString (s : String) : Option PF :=
  let cs := stripWs s
  let lower := String.mk (cs.map Char.toLower)
  if lower = "inf" || lower = "infinity" || lower = "+inf" || lower = "+infinity" then
    some .pinf
  else if lower = "-inf" || lower = "-infinity" then
    some .ninf
  else if lower = "nan" || lower = "+nan" || lower = "-nan" then
    some .nan
  else
    (parseFinite cs).map fun (neg, c, e) => .fin (finiteVal neg c e)

/-!
## Precision Resolver — `PromptBuilder._decimals_from_step`

```python
if step is None: return default_dp
try:
    d = Decimal(str(step))
    if d <= 0: return default_dp
    dp = max(0, -d.as_tuple().exponent)
    return int(min(dp, 18))
except (InvalidOperation, ValueError, TypeError):
    return default_dp
```

The step is modelled as `Option String` (`str(step)` of the original value).
Special decimal values collapse into the default in the source as well:
`Decimal('NaN') <= 0` raises `InvalidOperation` (caught), `-Infinity <= 0` is
true, and `+Infinity` has the non-integer exponent `'F'` so `-exponent` raises
`TypeError` (caught).  Hence parsing specials as a failed parse is
observationally identical, and `parseFinite` alone decides the outcome. -/
def decimals_from_step (step : Option String) (default_dp : ℤ) : ℤ :=
  match step with
  | none => default_dp
  | some s =>
    match parseFinite (stripWs s) with
    | none => default_dp
    | some (neg, coeff, exp) =>
      if finiteVal neg coeff exp ≤ 0 then default_dp
      else min (max 0 (-exp)) 18

/-! ## Dynamic Python values

The assembler receives `Dict[str, Any]` inputs; `PyVal` models the runtime
values that can reach it: `None`, booleans, ints, floats, strings, lists,
string-keyed dicts (all dict literals in the source use string keys), and
pandas DataFrames of OHLCV bars.  Operations that can raise return
`Except String` carrying the Python exception class name. -/

/-- One OHLCV bar (a DataFrame row).  Upstream market data is numeric, so the
fields are exact rationals (`open` is a Lean keyword, hence `open_`). -/
structure Bar where
  open_ : ℚ
  high : ℚ
  low : ℚ
  close : ℚ
  volume : ℚ
deriving DecidableEq, Repr

deriving instance DecidableEq for Except

inductive PyVal where
  | none
  | bool (b : Bool)
  | int (n : ℤ)
  | float (f : PF)
  | str (s : String)
  | list (xs : List PyVal)
  | dict (xs : List (String × PyVal))
  | pydf (rows : List Bar)
deriving Inhabited, Repr

namespace PyVal

/-- Python truthiness for the values on which `bool(x)` does not raise.
(`bool(DataFrame)` raises; see `truthyE`.) -/
def truthy : PyVal → Bool
  | .none => false
  | .bool b => b
  | .int n => n ≠ 0
  | .float (.fin q) => q ≠ 0
  | .float _ => true      -- inf and NaN are truthy
  | .str s => s ≠ ""
  | .list xs => !xs.isEmpty
  | .dict xs => !xs.isEmpty
  | .pydf _ => true       -- unreachable: guarded by truthyE

/-- `bool(x)`: raises `ValueError` on a DataFrame ("truth value ambiguous"). -/
def truthyE : PyVal → Except String Bool
  | .pydf _ => .error "ValueError"
  | v => .ok v.truthy

/-- `d.get(key, default)`: raises `AttributeError` unless `d` is a dict. -/
def get : PyVal → String → PyVal → Except String PyVal
  | .dict xs, k, d => .ok ((xs.lookup k).getD d)
  | _, _, _ => .error "AttributeError"

/-- `len(x)`: raises `TypeError` on unsized values. -/
def len : PyVal → Except String ℕ
  | .str s => .ok s.length
  | .list xs => .ok xs.length
  | .dict xs => .ok xs.length
  | .pydf rows => .ok rows.length
  | _ => .error "TypeError"

def isDict : PyVal → Bool
  | .dict _ => true
  | _ => false

/-- `d[k] = v` on a dict: update in place when the key exists, else append. -/
def dictSet (xs : List (String × PyVal)) (k : String) (v : PyVal) :
    List (String × PyVal) :=
  match xs with
  | [] => [(k, v)]
  | (k', v') :: t => if k' = k then (k, v) :: t else (k', v') :: dictSet t k v

/-- Python `==` on the hashable values this pipeline uses as dict keys
(numbers compare numerically across bool/int/float; NaN is not equal to
itself). -/
def eqKey : PyVal → PyVal → Bool
  | .none, .none => true
  | .str a, .str b => a = b
  | a, b =>
    let num : PyVal → Option PF
      | .bool x => some (.fin (if x then 1 else 0))
      | .int n => some (.fin (n : ℚ))
      | .float f => some f
      | _ => Option.none
    match num a, num b with
    | some (.fin x), some (.fin y) => x = y
    | some .pinf, some .pinf => true
    | some .ninf, some .ninf => true
    | _, _ => false

/-- Dict keys must be hashable: lists, dicts and DataFrames raise `TypeError`. -/
def hashable : PyVal → Bool
  | .list _ => false
  | .dict _ => false
  | .pydf _ => false
  | _ => true

end PyVal

/-- Python `float(x)`: converts bools, ints, floats and numeric strings;
raises `TypeError`/`ValueError` otherwise. -/
def pyFloat : PyVal → Except String PF
  | .bool b => .ok (.fin (if b then 1 else 0))
  | .int n => .ok (.fin (n : ℚ))
  | .float f => .ok f
  | .str s =>
    match pyFloatOfString s with
    | some f => .ok f
    | Option.none => .error "ValueError"
  | _ => .error "TypeError"

namespace PromptBuilder

/-- `PromptBuilder._is_num`. -/
def is_num (x : PyVal) : Bool :=
  match x with
  | .bool _ => false
  | _ => match pyFloat x with
    | .ok v => v.isFinite
    | .error _ => false

/-- `PromptBuilder._to_float`:
```python
try:
    v = float(x)
    if math.isfinite(v): return v
    return default
except Exception:
    return default
``` -/
def to_float (x : PyVal) (default : PF := .fin 0) : PF :=
  match pyFloat x with
  | .ok v => if v.isFinite then v else default
  | .error _ => default

/-- `PromptBuilder._round`: `round(float(x), n)` with every exception caught to
`0.0`.  `round` of an infinity raises `OverflowError` (hence `0.0`), but
`round(nan, n)` quietly returns `nan`. -/
def _round (x : PyVal) (n : ℤ := 4) : PF :=
  match pyFloat x with
  | .ok v => roundPF v n
  | .error _ => .fin 0

/-- `PromptBuilder._get`: read `d[key]` with a default, then either coerce with
`_to_float` (when `n` is `None`) or round with `_round`. -/
def _get (d : PyVal) (key : String) (default : PyVal := .float (.fin 0))
    (n : Option ℤ := Option.none) : Except String PF := do
  let v ← d.get key default
  match n with
  | Option.none =>
    let dflt : PF :=
      match default with
      | .int m => .fin (m : ℚ)
      | .float f => f
      | .bool b => .fin (if b then 1 else 0)  -- bool is an int subclass
      | _ => .fin 0
    pure (to_float v dflt)
  | some n => pure (_round v n)

/-- `PromptBuilder._norm_confidence`: HIGH/MEDIUM/LOW map to 0.8/0.6/0.4,
numbers (and numeric strings) already in [0,1] pass through, everything else
yields 0.5.  `isinstance(c, (int, float))` is true for bools as well. -/
def norm_confidence (c : PyVal) : ℚ :=
  let numCase : PF → ℚ := fun v =>
    match v with
    | .fin q => if 0 ≤ q ∧ q ≤ 1 then q else 1/2
    | _ => 1/2
  match c with
  | .bool b => numCase (.fin (if b then 1 else 0))
  | .int n => numCase (.fin (n : ℚ))
  | .float f => numCase f
  | .str s =>
    let cs := (stripWs s).map Char.toUpper
    if cs = "HIGH".toList then 8/10
    else if cs = "MEDIUM".toList then 6/10
    else if cs = "LOW".toList then 4/10
    else
      match pyFloatOfString s with
      | some (.fin q) => if 0 ≤ q ∧ q ≤ 1 then q else 1/2
      | some _ => 1/2
      | Option.none => 1/2
  | _ => 1/2

end PromptBuilder

/-! ## Candlestick pattern detection — `PromptBuilder._detect_candlestick_patterns`

The input is the `ohlc_list` the interval block builds: one dict per bar with
keys `O,H,L,C,V` (here a `Candle`), oldest→newest. -/

structure Candle where
  O : ℚ
  H : ℚ
  L : ℚ
  C : ℚ
  V : ℚ
deriving DecidableEq, Repr

namespace PromptBuilder

def body (o c : ℚ) : ℚ := |c - o|
def upper (o h c : ℚ) : ℚ := h - max o c
def lower (o l c : ℚ) : ℚ := min o c - l

def detect_candlestick_patterns (ohlc_tail : List Candle) : List String :=
  match ohlc_tail.getLast? with
  | Option.none => []
  | some last =>
    let o := last.O
    let h := last.H
    let l := last.L
    let c := last.C
    let rng := max (1/1000000000 : ℚ) (h - l)
    let b := body o c
    let up := upper o h c
    let lo := lower o l c
    let p1 := if b ≤ rng * (1/10) then ["Doji"] else []
    let p2 := if lo ≥ rng * (1/2) ∧ up ≤ rng * (2/10) ∧ c > o then ["Hammer"] else []
    let p3 := if up ≥ rng * (1/2) ∧ lo ≤ rng * (2/10) ∧ c < o then ["ShootingStar"] else []
    let p45 :=
      if ohlc_tail.length ≥ 2 then
        let prev := ohlc_tail.getD (ohlc_tail.length - 2) ⟨0, 0, 0, 0, 0⟩
        let o2 := prev.O
        let c2 := prev.C
        let p4 := if c2 < o2 ∧ c > o ∧ c ≥ max o2 c2 ∧ o ≤ min o2 c2 then ["BullishEngulfing"] else []
        let p5 := if c2 > o2 ∧ c < o ∧ o ≥ max o2 c2 ∧ c ≤ min o2 c2 then ["BearishEngulfing"] else []
        p4 ++ p5
      else []
    p1 ++ p2 ++ p3 ++ p45

end PromptBuilder

/-! ## Pandas series operations

A pandas Series is positional; it is embedded as a `List (Option ℚ)` (or
`List ℚ` when no entry can be NaN), built index-by-index so that alignment
with the source DataFrame is explicit. -/

namespace Pandas

/-- The `w`-long window of positions `i-w+1 .. i` (pandas `rolling(w)` at
row `i`); shorter than `w` when `i+1 < w`. -/
def windowEnd (xs : List ℚ) (w i : ℕ) : List ℚ :=
  (xs.take (i + 1)).drop (i + 1 - w)

/-- `rolling(window=w, min_periods=w).mean()` over a NaN-free series. -/
def rollingMean (w : ℕ) (xs : List ℚ) : List (Option ℚ) :=
  (List.range xs.length).map fun i =>
    if w ≤ i + 1 then some ((windowEnd xs w i).sum / w) else Option.none

/-- `rolling(window=w, min_periods=w).min()` over a NaN-free series. -/
def rollingMin (w : ℕ) (xs : List ℚ) : List (Option ℚ) :=
  (List.range xs.length).map fun i =>
    if w ≤ i + 1 then some ((windowEnd xs w i).foldr min (xs.getD i 0)) else Option.none

/-- `rolling(window=w, min_periods=w).max()` over a NaN-free series. -/
def rollingMax (w : ℕ) (xs : List ℚ) : List (Option ℚ) :=
  (List.range xs.length).map fun i =>
    if w ≤ i + 1 then some ((windowEnd xs w i).foldr max (xs.getD i 0)) else Option.none

/-- Sample variance (pandas `std` uses `ddof=1`) of a window. -/
def sampleVar (win : List ℚ) : ℚ :=
  let m := win.sum / win.length
  ((win.map fun x => (x - m) ^ 2).sum) / ((win.length : ℚ) - 1)

/-- `rolling(window=w, min_periods=w).std()`.  The floating-point square root
has no exact rational value; it is supplied as the parameter `sqrt`, and all
claims proved below hold for every choice of it. -/
def rollingStd (sqrt : ℚ → ℚ) (w : ℕ) (xs : List ℚ) : List (Option ℚ) :=
  (List.range xs.length).map fun i =>
    if w ≤ i + 1 then some (sqrt (sampleVar (windowEnd xs w i))) else Option.none

/-- `ewm(span, adjust=False).mean()` after the seed: the standard recurrence
`y_i = (1-α)·y_{i-1} + α·x_i`. -/
def ewmAux (α : ℚ) (prev : ℚ) : List ℚ → List ℚ
  | [] => []
  | x :: rest =>
    let v := (1 - α) * prev + α * x
    v :: ewmAux α v rest

/-- `ewm(span, adjust=False).mean()`, seeded with the first value. -/
def ewm (α : ℚ) : List ℚ → List ℚ
  | [] => []
  | x :: rest => x :: ewmAux α x rest

/-- `Series.tail(n).tolist()`: the last `min n len` entries, order preserved. -/
def pdTail (n : ℕ) (xs : List α) : List α :=
  xs.drop (xs.length - n)

/-- Pointwise (index-aligned) binary operation on two series with NaN
propagation, as pandas arithmetic between equal-length series. -/
def lift2 (f : ℚ → ℚ → ℚ) : List (Option ℚ) → List (Option ℚ) → List (Option ℚ) :=
  List.zipWith fun a b =>
    match a, b with
    | some x, some y => some (f x y)
    | _, _ => Option.none

end Pandas

/-! ## Indicator engine -/

namespace PromptBuilder

open Pandas

def closesOf (df : List Bar) : List ℚ := df.map Bar.close
def highsOf (df : List Bar) : List ℚ := df.map Bar.high
def lowsOf (df : List Bar) : List ℚ := df.map Bar.low

/-- `closes.diff()` followed by `delta.where(delta > 0, 0)`: the leading NaN of
`diff` fails the `> 0` test, so index 0 becomes `0`, not NaN. -/
def gains (cs : List ℚ) : List ℚ :=
  (List.range cs.length).map fun i =>
    if i = 0 then 0
    else
      let d := cs.getD i 0 - cs.getD (i - 1) 0
      if d > 0 then d else 0

/-- `(-delta.where(delta < 0, 0))`, index 0 again `0`. -/
def losses (cs : List ℚ) : List ℚ :=
  (List.range cs.length).map fun i =>
    if i = 0 then 0
    else
      let d := cs.getD i 0 - cs.getD (i - 1) 0
      if d < 0 then -d else 0

/-- `rs = gain / loss` with the 14-bar rolling means; an incomplete window is
NaN, `0/0` is NaN, `positive/0` is `+inf` (numpy semantics). -/
def rsList (df : List Bar) : List PF :=
  let g := rollingMean 14 (gains (closesOf df))
  let l := rollingMean 14 (losses (closesOf df))
  List.zipWith
    (fun a b =>
      match a, b with
      | some x, some y => PF.div (.fin x) (.fin y)
      | _, _ => PF.nan)
    g l

/-- `rsi_full = 100 - (100 / (1 + rs))`. -/
def rsiFull (df : List Bar) : List PF :=
  (rsList df).map fun r => PF.sub (.fin 100) (PF.div (.fin 100) (PF.add (.fin 1) r))

/-- The `rsi` array of `_build_interval_block`: guard `len(df) >= 30`, last 10
values, rounded to 1 decimal (a NaN rounds to NaN). -/
def rsi_arr (df : List Bar) : List PF :=
  if 30 ≤ df.length then (pdTail 10 (rsiFull df)).map (roundPF · 1) else []

/-- `macd_line = ema12 - ema26` (`adjust=False`, seeded with the first value). -/
def macdLine (cs : List ℚ) : List ℚ :=
  List.zipWith (· - ·) (ewm (2/13) cs) (ewm (2/27) cs)

/-- `hist = macd_line - signal_line` with `signal = EMA9` of the MACD line. -/
def histLine (cs : List ℚ) : List ℚ :=
  List.zipWith (· - ·) (macdLine cs) (ewm (2/10) (macdLine cs))

/-- The `macd` array of the interval block: last 10 values rounded to 4 dp. -/
def macd_arr (df : List Bar) : List ℚ :=
  if 30 ≤ df.length then (pdTail 10 (macdLine (closesOf df))).map (pyRound · 4) else []

/-- The `histogram` array of the interval block. -/
def hist_arr (df : List Bar) : List ℚ :=
  if 30 ≤ df.length then (pdTail 10 (histLine (closesOf df))).map (pyRound · 4) else []

def optPF : Option ℚ → PF
  | some q => .fin q
  | Option.none => .nan

/-- `rsv = (close - low_n) / (high_n - low_n) * 100`, then `fillna(50)` and
`clip(0, 100)` (an `inf` from a zero range clips to the bound). -/
def rsvSeries (df : List Bar) (n : ℕ) : List ℚ :=
  let low_n := rollingMin n (lowsOf df)
  let high_n := rollingMax n (highsOf df)
  (List.range df.length).map fun i =>
    let c : PF := .fin ((closesOf df).getD i 0)
    let lo : PF := optPF (low_n.getD i Option.none)
    let hi : PF := optPF (high_n.getD i Option.none)
    match PF.mul (PF.div (PF.sub c lo) (PF.sub hi lo)) (.fin 100) with
    | .fin q => max 0 (min 100 q)
    | .pinf => 100
    | .ninf => 0
    | .nan => 50

/-- One emitted KDJ sample. -/
structure KdjRow where
  k : ℚ
  d : ℚ
  j : ℚ
deriving DecidableEq, Repr

/-- The loop of `_compute_kdj_series`, carrying `(k_prev, d_prev)` seeded with
`(50, 50)`: `K = (2/3)K' + (1/3)RSV`, `D = (2/3)D' + (1/3)K`, `J = 3K - 2D`. -/
def kdjFold (kp dp : ℚ) : List ℚ → List (ℚ × ℚ × ℚ)
  | [] => []
  | v :: rest =>
    let k := 2/3 * kp + 1/3 * v
    let d := 2/3 * dp + 1/3 * k
    (k, d, 3 * k - 2 * d) :: kdjFold k d rest

/-- `PromptBuilder._compute_kdj_series` on a bar DataFrame (all of
`high/low/close` exist in a `Bar` frame, so the column guard holds; the
`df is None` and exception paths live in the dynamic wrapper below). -/
def compute_kdj_series (df : List Bar) (n : ℕ := 9) : List KdjRow :=
  if df.length < n then []
  else
    (pdTail 10 (kdjFold 50 50 (rsvSeries df n))).map fun t =>
      ⟨pyRound t.1 1, pyRound t.2.1 1, pyRound t.2.2 1⟩

/-- One emitted Bollinger sample (`NaN` is representable: `_round_price` maps
a NaN input to NaN, since `round(nan, dp)` does not raise). -/
structure BollRow where
  upper : PF
  middle : PF
  lower : PF
deriving DecidableEq, Repr

/-- `_round_price` applied to one float of `tail(10).tolist()`. -/
def roundPriceOpt (price_dp : ℤ) : Option ℚ → PF
  | some q => .fin (pyRound q price_dp)
  | Option.none => .nan

/-- `PromptBuilder._compute_boll_series` on a bar DataFrame.  `price_dp` is the
resolved price precision of the symbol (`self._price_dp(symbol)`); `sqrt` is
the floating-point square root used by `Series.std()` (see `rollingStd`). -/
def compute_boll_series (sqrt : ℚ → ℚ) (price_dp : ℤ) (df : List Bar)
    (window : ℕ := 20) : List BollRow :=
  if df.length < window then []
  else
    let cs := closesOf df
    let sma := rollingMean window cs
    let std := rollingStd sqrt window cs
    let up := lift2 (fun m s => m + s * 2) sma std
    let lo := lift2 (fun m s => m - s * 2) sma std
    ((pdTail 10 up).zip ((pdTail 10 sma).zip (pdTail 10 lo))).map fun t =>
      ⟨roundPriceOpt price_dp t.1, roundPriceOpt price_dp t.2.1,
        roundPriceOpt price_dp t.2.2⟩

/-- The `ohlc_list` of `_build_interval_block`: last 10 bars, prices rounded at
the symbol's price precision, volume at 0 decimals. -/
def ohlcList (price_dp : ℤ) (df : List Bar) : List Candle :=
  (pdTail 10 df).map fun r =>
    ⟨pyRound r.open_ price_dp, pyRound r.high price_dp, pyRound r.low price_dp,
      pyRound r.close price_dp, pyRound r.volume 0⟩

end PromptBuilder

/-! ## `datetime.fromisoformat(ts).timestamp()`

Used only through `_ts_key`.  Modelled for naive extended-format timestamps
`YYYY-MM-DD[<sep>HH:MM[:SS[.ffffff]]]` with field validation, converted to a
Unix epoch with a UTC offset (a naive `timestamp()` applies the host timezone;
the offset does not affect any ordering property proved here, and the concrete
instances below only compare keys whose offsets cancel). -/

namespace Iso

/-- Days since 1970-01-01 of a civil date (Lean's `ℤ` division is floor
division for a positive divisor, which is what the era computation needs). -/
def daysFromCivil (y : ℤ) (m d : ℕ) : ℤ :=
  let y' : ℤ := if m ≤ 2 then y - 1 else y
  let era : ℤ := y' / 400
  let yoe : ℤ := y' - era * 400
  let mp : ℕ := (m + 9) % 12
  let doy : ℤ := (153 * mp + 2) / 5 + d - 1
  let doe : ℤ := yoe * 365 + yoe / 4 - yoe / 100 + doy
  era * 146097 + doe - 719468

def isLeap (y : ℤ) : Bool := y % 4 = 0 ∧ (y % 100 ≠ 0 ∨ y % 400 = 0)

def daysInMonth (y : ℤ) (m : ℕ) : ℕ :=
  if m = 2 then (if isLeap y then 29 else 28)
  else if m = 4 ∨ m = 6 ∨ m = 9 ∨ m = 11 then 30
  else 31

/-- Exactly `n` leading digits. -/
def takeDigitsN (n : ℕ) (cs : List Char) : Option (ℕ × List Char) :=
  let ds := cs.take n
  if ds.length = n ∧ ds.all Char.isDigit then some (digitsToNat ds, cs.drop n)
  else Option.none

def parseTime (cs : List Char) : Option ℚ := do
  let (hh, cs) ← takeDigitsN 2 cs
  let cs ← match cs with | ':' :: t => some t | _ => Option.none
  let (mm, cs) ← takeDigitsN 2 cs
  if hh ≥ 24 ∨ mm ≥ 60 then Option.none else
  match cs with
  | [] => some (3600 * hh + 60 * mm)
  | ':' :: t => do
    let (ss, t) ← takeDigitsN 2 t
    if ss ≥ 60 then Option.none else
    match t with
    | [] => some (3600 * hh + 60 * mm + ss)
    | '.' :: f =>
      let ds := f.takeWhile Char.isDigit
      if f.dropWhile Char.isDigit ≠ [] ∨ ds.length = 0 ∨ ds.length > 6 then Option.none
      else some (3600 * hh + 60 * mm + ss +
        (digitsToNat ds : ℚ) / (10 : ℚ) ^ (ds.length : ℤ))
    | _ => Option.none
  | _ => Option.none

/-- Parse an ISO timestamp to its Unix epoch (seconds, exact). -/
def parseIso (s : String) : Option ℚ := do
  let cs := s.toList
  let (y, cs) ← takeDigitsN 4 cs
  let cs ← match cs with | '-' :: t => some t | _ => Option.none
  let (m, cs) ← takeDigitsN 2 cs
  let cs ← match cs with | '-' :: t => some t | _ => Option.none
  let (d, cs) ← takeDigitsN 2 cs
  if m = 0 ∨ m > 12 ∨ d = 0 ∨ d > daysInMonth y m then Option.none else
  let days : ℤ := daysFromCivil y m d
  match cs with
  | [] => some (86400 * days)
  | _ :: t => do               -- any single separator character
    let tod ← parseTime t
    pure (86400 * days + tod)

end Iso

/-! ## List-of-characters utilities mirroring Python string methods -/

/-- `p` is a leading segment of `s`. -/
def isPre : List Char → List Char → Bool
  | [], _ => true
  | _ :: _, [] => false
  | p :: ps, c :: cs => p = c && isPre ps cs

/-- Substring test (`needle in haystack` for Python strings). -/
def hasSub (pat : List Char) : List Char → Bool
  | [] => pat.isEmpty
  | c :: rest => isPre pat (c :: rest) || hasSub pat rest

/-- `str.replace(pat, rep)` for a non-empty pattern, left-to-right and
non-overlapping; the fuel argument is the string length. -/
def replFuel (pat rep : List Char) : ℕ → List Char → List Char
  | _, [] => []
  | 0, s => s
  | fuel + 1, c :: rest =>
    if isPre pat (c :: rest) ∧ !pat.isEmpty then
      rep ++ replFuel pat rep fuel (rest.drop (pat.length - 1))
    else c :: replFuel pat rep fuel rest

def pyReplace (s pat rep : String) : String :=
  String.mk (replFuel pat.toList rep.toList s.toList.length s.toList)

/-! ## History Aggregator — `PromptBuilder._group_history_by_symbol` -/

namespace PromptBuilder

/-- The sort key of `_group_history_by_symbol`:
```python
ts = rec.get("timestamp")          # raises on a non-dict record
try: return datetime.fromisoformat(ts).timestamp()
except Exception: return 0.0
``` -/
def ts_key (rec : PyVal) : Except String ℚ := do
  let ts ← rec.get "timestamp" .none
  pure (match ts with
    | .str s => (Iso.parseIso s).getD 0
    | _ => 0)

/-- The per-record normalization inside the trailing-window loop. -/
def clean_record (rec : PyVal) : Except String PyVal := do
  let ts ← rec.get "timestamp" .none
  let act ← rec.get "action" .none
  let op ← rec.get "open_percent" .none
  let opT ← op.truthyE
  let rp ← rec.get "reduce_percent" .none
  let rpT ← rp.truthyE
  let conf ← rec.get "confidence" .none
  let lev ← rec.get "leverage" .none
  let rsn ← rec.get "reason" .none
  let prc ← rec.get "price" .none
  let pae ← rec.get "positionAfterExecution" .none
  pure (.dict [
    ("timestamp", ts),
    ("action", act),
    ("open_percent", if opT then op else .int 0),
    ("reduce_percent", if rpT then rp else .int 0),
    ("confidence", .float (.fin (norm_confidence conf))),
    ("leverage", .float (to_float lev (.fin 0))),
    ("reason", rsn),
    ("price", .float (to_float prc (.fin 0))),
    ("positionAfterExecution", pae)])

/-- `buckets.setdefault(sym, []).append(rec)`: append to the bucket of an
existing key (insertion order preserved) or open a fresh bucket at the end. -/
def addToBucket (bs : List (PyVal × List PyVal)) (k : PyVal) (r : PyVal) :
    List (PyVal × List PyVal) :=
  match bs with
  | [] => [(k, [r])]
  | (k', rs) :: t =>
    if PyVal.eqKey k' k then (k', rs ++ [r]) :: t else (k', rs) :: addToBucket t k r

/-- One step of the bucketing loop: records with a falsy `symbol` are
skipped; an unhashable symbol raises `TypeError` at `setdefault`. -/
def bucketInsert (bs : List (PyVal × List PyVal)) (rec : PyVal) :
    Except String (List (PyVal × List PyVal)) := do
  let sym ← rec.get "symbol" .none
  if !(← sym.truthyE) then pure bs
  else if !sym.hashable then Except.error "TypeError"
  else pure (addToBucket bs sym rec)

/-- The bucketing loop of `_group_history_by_symbol`. -/
def bucketsOf (recs : List PyVal) : Except String (List (PyVal × List PyVal)) :=
  recs.foldlM bucketInsert []

/-- `PromptBuilder._group_history_by_symbol`.  Returns the grouped dict as an
association list in Python dict (insertion) order. -/
def group_history_by_symbol (decision_history : PyVal) (max_per_symbol : ℕ := 10) :
    Except String (List (PyVal × List PyVal)) := do
  if !(← decision_history.truthyE) then pure []
  else
    match decision_history with
    | .list recs => do
      let keyed ← recs.mapM fun r => do
        let k ← ts_key r
        pure (k, r)
      let sorted_all := (keyed.mergeSort fun a b => decide (a.1 ≤ b.1)).map Prod.snd
      let buckets ← bucketsOf sorted_all
      buckets.mapM fun kv => do
        let trimmed := kv.2.drop (kv.2.length - max_per_symbol)
        let cleaned ← trimmed.mapM clean_record
        pure (kv.1, cleaned)
    | .str _ => Except.error "AttributeError"  -- sorted() iterates characters
    | .dict _ => Except.error "AttributeError" -- sorted() iterates string keys
    | _ => Except.error "TypeError"            -- sorted() of a non-iterable

/-! ## Payload Assembler -/

/-- The state of a `PromptBuilder` instance that
`build_multi_symbol_analysis_payload` reads: the per-symbol precision table
`{"SYM": {"price_dp": p, "qty_dp": q}}`.  (The `config` field only feeds the
prompt text, not the JSON payload.) -/
structure PB where
  symbol_precisions : List (String × (ℤ × ℤ))

/-- `self.default_intervals`. -/
def default_intervals : List String := ["3m", "5m", "15m", "1h", "4h", "1d"]

/-- `self._price_dp(symbol)`. -/
def PB.price_dp (pb : PB) (symbol : String) (fallback : ℤ := 2) : ℤ :=
  (((pb.symbol_precisions.lookup symbol).map Prod.fst).getD fallback)

/-- `self._qty_dp(symbol)`. -/
def PB.qty_dp (pb : PB) (symbol : String) (fallback : ℤ := 4) : ℤ :=
  (((pb.symbol_precisions.lookup symbol).map Prod.snd).getD fallback)

/-- `self._round_price(symbol, x)` — `round(float(x), price_dp)` with every
exception caught to `0.0` (an identical body to `_round` at price precision). -/
def round_price (pb : PB) (symbol : String) (x : PyVal) : PF :=
  _round x (pb.price_dp symbol)

/-- `self._round_qty(symbol, x)`. -/
def round_qty (pb : PB) (symbol : String) (x : PyVal) : PF :=
  _round x (pb.qty_dp symbol)

/-- Python `x in container` for the containers the assembler touches. -/
def pyContains (container x : PyVal) : Except String Bool :=
  match container with
  | .dict xs => .ok (xs.any fun kv => PyVal.eqKey (.str kv.1) x)
  | .list xs => .ok (xs.any fun e => PyVal.eqKey e x)
  | .str s =>
    match x with
    | .str sub => .ok (hasSub sub.toList s.toList)
    | _ => .error "TypeError"
  | .pydf _ =>
    -- membership on a DataFrame is column membership; a Bar frame has
    -- exactly the five OHLCV columns
    match x with
    | .str c => .ok (c = "open" ∨ c = "high" ∨ c = "low" ∨ c = "close" ∨ c = "volume")
    | _ => .ok false
  | _ => .error "TypeError"

/-- The dynamic entry of `_compute_kdj_series`: its whole body is inside
`try/except`, so every non-DataFrame input (None, unsized values, dicts or
lists without usable columns) collapses to `[]`. -/
def compute_kdj_series_dyn (dfv : PyVal) (n : ℕ := 9) : List KdjRow :=
  match dfv with
  | .pydf rows => compute_kdj_series rows n
  | _ => []

/-- The dynamic entry of `_compute_boll_series` (same `try/except` shape). -/
def compute_boll_series_dyn (sqrt : ℚ → ℚ) (pb : PB) (dfv : PyVal)
    (symbol : String) (window : ℕ := 20) : List BollRow :=
  match dfv with
  | .pydf rows => compute_boll_series sqrt (pb.price_dp symbol) rows window
  | _ => []

/-- `PromptBuilder._build_interval_block`.  `sqrt` is the floating-point square
root used by `Series.std()` (see `rollingStd`). -/
def build_interval_block (pb : PB) (sqrt : ℚ → ℚ) (interval : String)
    (data : PyVal) (symbol : String) : Except String (Option PyVal) := do
  if !(← data.truthyE) then pure Option.none
  else do
    let ind0 ← data.get "indicators" (.dict [])
    let ind := if (← ind0.truthyE) then ind0 else .dict []
    let dfv ← data.get "dataframe" .none
    let ema := round_price pb symbol (← ind.get "ema_20" (.float (.fin 0)))
    let atr := round_price pb symbol (← ind.get "atr_14" (.float (.fin 0)))
    -- `if df is not None and len(df) >= 30 and "close" in df:` — `len` raises
    -- on unsized values; for sized non-DataFrames every inner `try` fails and
    -- leaves the three arrays empty.
    let rmh : List PF × List ℚ × List ℚ ←
      match dfv with
      | .none => pure ([], [], [])
      | .pydf rows => pure (rsi_arr rows, macd_arr rows, hist_arr rows)
      | _ => do
        let _ ← dfv.len
        pure ([], [], [])
    let kdj := compute_kdj_series_dyn dfv 9
    let boll := compute_boll_series_dyn sqrt pb dfv symbol 20
    -- OHLC tail: `df.tail(10)` raises AttributeError on a sized non-DataFrame
    let ohlc : List Candle ←
      match dfv with
      | .none => pure []
      | .pydf rows => pure (if 0 < rows.length then ohlcList (pb.price_dp symbol) rows else [])
      | _ => do
        let n ← dfv.len
        if 0 < n then Except.error "AttributeError" else pure []
    let pats := if ohlc.isEmpty then [] else detect_candlestick_patterns ohlc
    pure (some (.dict [
      ("time_frame", .str interval),
      ("ema20", .float ema),
      ("atr14", .float atr),
      ("rsi", .list (rmh.1.map .float)),
      ("macd", .list (rmh.2.1.map fun q => .float (.fin q))),
      ("histogram", .list (rmh.2.2.map fun q => .float (.fin q))),
      ("kdj", .list (kdj.map fun r => .dict
        [("k", .float (.fin r.k)), ("d", .float (.fin r.d)), ("j", .float (.fin r.j))])),
      ("boll", .list (boll.map fun r => .dict
        [("upper", .float r.upper), ("middle", .float r.middle), ("lower", .float r.lower)])),
      ("patterns", .list (pats.map .str))]))

/-- `d[k] = v` as a `PyVal` operation (only ever applied to dicts here). -/
def setItem (d : PyVal) (k : String) (v : PyVal) : PyVal :=
  match d with
  | .dict xs => .dict (PyVal.dictSet xs k v)
  | other => other

/-- One step of the timeframe loop inside the per-symbol body: skip intervals
absent from `multi_timeframe`, build the block, stamp the symbol-level funding
rate onto it, and append it. -/
def intervalStep (pb : PB) (sqrt : ℚ → ℚ) (symbol : String) (funding : PF)
    (multi : PyVal) (acc : List PyVal) (interval : String) :
    Except String (List PyVal) := do
  if !(← pyContains multi (.str interval)) then pure acc
  else do
    let d0 ← multi.get interval .none
    let d := if (← d0.truthyE) then d0 else .dict []
    match ← build_interval_block pb sqrt interval d symbol with
    | some block =>
      if block.truthy then pure (acc ++ [setItem block "funding" (.float funding)])
      else pure acc
    | Option.none => pure acc

/-- The per-symbol body of the assembler's main loop. -/
def build_symbol_obj (pb : PB) (sqrt : ℚ → ℚ)
    (grouped : List (PyVal × List PyVal)) (symbol : String)
    (symbol_data : PyVal) : Except String PyVal := do
  let md0 ← symbol_data.get "market_data" (.dict [])
  let market_data := if (← md0.truthyE) then md0 else .dict []
  let position ← symbol_data.get "position" .none
  let coin_name := pyReplace symbol "USDT" ""
  let rt0 ← market_data.get "realtime" .none
  let realtime := if (← rt0.truthyE) then rt0 else .dict []
  let current_price := round_price pb symbol (← realtime.get "price" (.float (.fin 0)))
  let funding ← _get realtime "funding_rate" (.float (.fin 0)) (some 6)
  let open_interest ← _get realtime "open_interest" (.float (.fin 0)) (some 0)
  let posObj : PyVal ←
    if (← position.truthyE) then do
      let sideRaw ← position.get "side" .none
      let side : PyVal ←
        if (← sideRaw.truthyE) then pure sideRaw
        else do
          let amt ← position.get "positionAmt" .none
          pure (.str (if 0 < (to_float amt (.fin 0)).toQ then "LONG" else "SHORT"))
      let pAmt := round_qty pb symbol (← position.get "positionAmt" (.float (.fin 0)))
      let entry := round_price pb symbol (← position.get "entry_price" (.float (.fin 0)))
      let lev := to_float (← position.get "leverage" .none) (.fin 0)
      let upnl ← _get position "unrealized_pnl" (.float (.fin 0)) (some 4)
      let pnlPct ← _get position "pnl_percent" (.float (.fin 0)) (some 4)
      let isoM ← _get position "isolatedMargin" (.float (.fin 0)) (some 4)
      let ut ← position.get "updateTime" .none
      let utv : PyVal := if (← ut.truthyE) then ut else .int 0
      pure (.dict [
        ("side", side),
        ("positionAmt", .float pAmt),
        ("entry_price", .float entry),
        ("leverage", .float lev),
        ("unrealized_pnl", .float upnl),
        ("pnl_percent", .float pnlPct),
        ("isolatedMargin", .float isoM),
        ("updateTime", utv)])
    else pure .none
  let dh := ((grouped.find? fun kv => PyVal.eqKey kv.1 (.str symbol)).map Prod.snd).getD []
  let multi0 ← market_data.get "multi_timeframe" (.dict [])
  let multi := if (← multi0.truthyE) then multi0 else .dict []
  let blocks ← default_intervals.foldlM (intervalStep pb sqrt symbol funding multi) []
  pure (.dict [
    ("market", .str (coin_name ++ "/USDT")),
    ("funding", .float funding),
    ("open_interest", .float open_interest),
    ("current_price", .float current_price),
    ("position", posObj),
    ("market_data", .list blocks),
    ("decision_history", .list dh)])

/-- `PromptBuilder.build_multi_symbol_analysis_payload`.  `now` stands for the
`datetime.now()` timestamp written into `meta` (the only impure read). -/
def build_multi_symbol_analysis_payload (pb : PB) (sqrt : ℚ → ℚ) (now : String)
    (all_symbols_data : PyVal) (account_summary : PyVal := .none)
    (decision_history : PyVal := .none) : Except String PyVal := do
  let account : PyVal ←
    if (← account_summary.truthyE) then do
      let e ← _get account_summary "equity" (.float (.fin 0)) (some 2)
      let a ← _get account_summary "available_balance" (.float (.fin 0)) (some 2)
      let u ← _get account_summary "total_unrealized_pnl" (.float (.fin 0)) (some 2)
      pure (PyVal.dict [("equity", .float e), ("available_balance", .float a),
        ("total_unrealized_pnl", .float u)])
    else pure (PyVal.dict [])
  let grouped ← group_history_by_symbol decision_history 10
  let items : List (String × PyVal) ← match all_symbols_data with
    | .dict xs => pure xs
    | _ => Except.error "AttributeError"  -- `.items()` on a non-dict
  let symbols ← items.mapM fun kv => build_symbol_obj pb sqrt grouped kv.1 kv.2
  pure (.dict [
    ("meta", .dict [("now", .str now), ("exchange", .str "Binance Perp (USDT-M)")]),
    ("account", account),
    ("symbols", .list symbols)])

end PromptBuilder

/-! ## `main._build_precision_map` -/

/-- One `SymbolFilters` record (`tickSize`/`stepSize` as the textual form of
the exchange metadata; `None` when absent). -/
structure SymbolFilters where
  tickSize : Option String
  stepSize : Option String

/-- `TradingBotApp._build_precision_map`: price decimals default to 2, quantity
decimals to 4. -/
def build_precision_map (filters : List (String × SymbolFilters)) :
    List (String × (ℤ × ℤ)) :=
  filters.map fun kv =>
    (kv.1, (decimals_from_step kv.2.tickSize 2, decimals_from_step kv.2.stepSize 4))

/-! ## Observations used to state results about `Except`/`PyVal` outputs -/

/-- Whether an assembler run returned a payload (rather than raising). -/
def isOk : Except String PyVal → Bool
  | .ok _ => true
  | .error _ => false

/-- The exception class of a failed assembler run. -/
def errOf : Except String PyVal → Option String
  | .error e => some e
  | .ok _ => Option.none

/-- Dict field access for inspecting built payloads (None when absent). -/
def getKey (v : PyVal) (k : String) : PyVal :=
  match v with
  | .dict xs => (xs.lookup k).getD .none
  | _ => .none

def asList (v : PyVal) : List PyVal :=
  match v with
  | .list xs => xs
  | _ => []

/-- A 30-bar test dataframe with strictly rising closes (witness fixture). -/
def dfW30 : List Bar :=
  (List.range 30).map fun i => ⟨(i : ℚ), (i : ℚ) + 2, (i : ℚ), (i : ℚ) + 1, 1⟩

/-! ## Pure views of the history aggregator (used to state its properties) -/

/-- The instrument identifier of a decision record. -/
def symOf (rec : PyVal) : PyVal := getKey rec "symbol"

/-- The numeric sort key that `_ts_key` assigns to a record: the parsed epoch
of its ISO timestamp, or `0.0` (the Unix epoch) when it does not parse. -/
def tsVal (rec : PyVal) : ℚ :=
  match getKey rec "timestamp" with
  | .str s => (Iso.parseIso s).getD 0
  | _ => 0

/-- The normalized record the window loop emits (pure view of
`PromptBuilder.clean_record`). -/
def cleanVal (rec : PyVal) : PyVal :=
  .dict [
    ("timestamp", getKey rec "timestamp"),
    ("action", getKey rec "action"),
    ("open_percent",
      if (getKey rec "open_percent").truthy then getKey rec "open_percent" else .int 0),
    ("reduce_percent",
      if (getKey rec "reduce_percent").truthy then getKey rec "reduce_percent" else .int 0),
    ("confidence", .float (.fin (PromptBuilder.norm_confidence (getKey rec "confidence")))),
    ("leverage", .float (PromptBuilder.to_float (getKey rec "leverage") (.fin 0))),
    ("reason", getKey rec "reason"),
    ("price", .float (PromptBuilder.to_float (getKey rec "price") (.fin 0))),
    ("positionAfterExecution", getKey rec "positionAfterExecution")]

/-- Lookup in the grouped dict / bucket list (Python `d.get(k, [])` without
the default). -/
def lookupGrouped (out : List (PyVal × List PyVal)) (k : PyVal) :
    Option (List PyVal) :=
  (out.find? fun kv => PyVal.eqKey kv.1 k).map Prod.snd

/-- The pure bucketing fold (the successful run of `bucketsOf`). -/
def bucketStep (bs : List (PyVal × List PyVal)) (r : PyVal) :
    List (PyVal × List PyVal) :=
  if (symOf r).truthy then PromptBuilder.addToBucket bs (symOf r) r else bs

/-- The stable ascending sort by timestamp key (the successful run of the
`sorted(...)` call). -/
def sortedByTs (recs : List PyVal) : List PyVal :=
  ((recs.map fun r => (tsVal r, r)).mergeSort fun a b => decide (a.1 ≤ b.1)).map Prod.snd

/-- The timestamp string of a record (for stating concrete instances). -/
def tsStr (r : PyVal) : String :=
  match getKey r "timestamp" with
  | .str s => s
  | _ => ""

/-- Fifteen BTCUSDT decision records handed over newest-first (the aggregator
must sort them oldest-first before windowing). -/
def hist15 : List PyVal :=
  (List.range 15).map fun i =>
    .dict [("symbol", .str "BTCUSDT"),
      ("timestamp", .str ("2024-01-" ++ (if 15 - i < 10 then "0" else "") ++
        toString (15 - i) ++ "T00:00:00"))]

/-- A pre-epoch record and an unparseable-timestamp record for instrument A. -/
def hist2 : List PyVal :=
  [.dict [("symbol", .str "A"), ("timestamp", .str "1960-01-01T00:00:00")],
   .dict [("symbol", .str "A"), ("timestamp", .str "not-a-date")]]

/-! ## Well-formedness of inputs (sufficient conditions for the assembler not
to raise: values reaching attribute access are dicts, values reaching
truthiness tests are not DataFrames, dict keys are hashable) -/

def notDf : PyVal → Bool
  | .pydf _ => false
  | _ => true

/-- A value only read through `x.get(...)` after an `or {}` guard: any dict,
or anything falsy. -/
def WFDictOrFalsy : PyVal → Bool
  | .dict _ => true
  | .pydf _ => false
  | x => !x.truthy

/-- A decision record the history aggregator can process. -/
def WFRecord : PyVal → Bool
  | .dict xs =>
    PyVal.hashable ((xs.lookup "symbol").getD .none) &&
    notDf ((xs.lookup "open_percent").getD .none) &&
    notDf ((xs.lookup "reduce_percent").getD .none)
  | _ => false

/-- A decision-history argument the aggregator can process. -/
def WFHistory : PyVal → Bool
  | .list rs => rs.all WFRecord
  | .pydf _ => false
  | x => !x.truthy

/-- A `dataframe` entry of a timeframe: absent/None or an OHLCV frame. -/
def WFDataframe : PyVal → Bool
  | .none => true
  | .pydf _ => true
  | _ => false

/-- One timeframe's data dict. -/
def WFInterval : PyVal → Bool
  | .pydf _ => false
  | .dict xs =>
    (match (xs.lookup "indicators").getD (.dict []) with
      | .pydf _ => false
      | .dict _ => true
      | x => !x.truthy) &&
    WFDataframe ((xs.lookup "dataframe").getD .none)
  | x => !x.truthy

def WFMulti : PyVal → Bool
  | .pydf _ => false
  | .dict xs => xs.all fun kv => WFInterval kv.2
  | x => !x.truthy

def WFPosition : PyVal → Bool
  | .pydf _ => false
  | .dict xs =>
    notDf ((xs.lookup "side").getD .none) && notDf ((xs.lookup "updateTime").getD .none)
  | x => !x.truthy

def WFMarketData : PyVal → Bool
  | .pydf _ => false
  | .dict xs =>
    WFDictOrFalsy ((xs.lookup "realtime").getD .none) &&
    WFMulti ((xs.lookup "multi_timeframe").getD (.dict []))
  | x => !x.truthy

def WFSymbolData : PyVal → Bool
  | .dict xs =>
    WFMarketData ((xs.lookup "market_data").getD (.dict [])) &&
    WFPosition ((xs.lookup "position").getD .none)
  | _ => false

def WFAllSymbols : PyVal → Bool
  | .dict xs => xs.all fun kv => WFSymbolData kv.2
  | _ => false

end TradingBot

/-! # Theorems -/

namespace TradingBot

/-- **C3** — `_decimals_from_step` returns the default when the step is `None`,
unparseable, or not strictly positive; otherwise the magnitude of the parsed
decimal's negative exponent clamped into `[0, 18]`; `"0.01"` yields 2 and
`"1e-6"` yields 6; and whenever the default lies in `[0, 18]` so does the
result. -/
theorem claim_C3_decimals_from_step (step : Option String) (d : ℤ) :
    (decimals_from_step Option.none d = d) ∧
    (∀ s, step = some s → parseFinite (stripWs s) = Option.none →
      decimals_from_step step d = d) ∧
    (∀ s neg c e, step = some s → parseFinite (stripWs s) = some (neg, c, e) →
      finiteVal neg c e ≤ 0 → decimals_from_step step d = d) ∧
    (∀ s neg c e, step = some s → parseFinite (stripWs s) = some (neg, c, e) →
      0 < finiteVal neg c e → decimals_from_step step d = min (max 0 (-e)) 18) ∧
    (decimals_from_step (some "0.01") d = 2) ∧
    (decimals_from_step (some "1e-6") d = 6) ∧
    (0 ≤ d → d ≤ 18 → 0 ≤ decimals_from_step step d ∧ decimals_from_step step d ≤ 18) := by
  refine ⟨rfl, ?_, ?_, ?_, rfl, rfl, ?_⟩
  · rintro s rfl hp
    simp [decimals_from_step, hp]
  · rintro s neg c e rfl hp hle
    simp [decimals_from_step, hp, if_pos hle]
  · rintro s neg c e rfl hp hpos
    simp [decimals_from_step, hp, if_neg (not_le.mpr hpos)]
  · intro h1 h2
    cases step with
    | none => simpa [decimals_from_step] using ⟨h1, h2⟩
    | some s =>
      simp only [decimals_from_step]
      cases parseFinite (stripWs s) with
      | none => exact ⟨h1, h2⟩
      | some t =>
        obtain ⟨neg, c, e⟩ := t
        simp only
        split
        · exact ⟨h1, h2⟩
        · exact ⟨le_min (by positivity) (by norm_num), min_le_right _ _⟩

/-- Witness for C3 at concrete inputs: `"0.001"` parses with exponent `-3` and
positive value, so the clamped-exponent branch applies and yields 3. -/
theorem claim_C3_witness :
    decimals_from_step (some "0.001") 5 = min (max 0 (-(-3 : ℤ))) 18 ∧
    (0 ≤ decimals_from_step (some "xyz") 5 ∧ decimals_from_step (some "xyz") 5 ≤ 18) :=
  ⟨(claim_C3_decimals_from_step (some "0.001") 5).2.2.2.1 "0.001" false 1 (-3)
      rfl (by decide) (by decide),
    (claim_C3_decimals_from_step (some "xyz") 5).2.2.2.2.2.2 (by decide) (by decide)⟩

/-- **C9** — the decimal-place count depends on the textual form of the step:
`"0.01000000"` yields 8 while `"0.01"` yields 2, although both parse to the
same rational value `1/100`. -/
theorem claim_C9_textual_decimals :
    decimals_from_step (some "0.01000000") 2 = 8 ∧
    decimals_from_step (some "0.01") 2 = 2 ∧
    decimals_from_step (some "0.01000000") 4 = 8 ∧
    decimals_from_step (some "0.01") 4 = 2 ∧
    pyFloatOfString "0.01000000" = some (.fin (1/100)) ∧
    pyFloatOfString "0.01" = some (.fin (1/100)) := by
  decide

/-- **C7 counterexample** — the numeric *string* `"0.7"` is neither one of the
three labels nor a numeric value, yet `_norm_confidence` returns its parsed
value `0.7`, not the claimed catch-all `0.5`. -/
theorem claim_C7_counterexample :
    PromptBuilder.norm_confidence (.str "0.7") = 7/10 ∧ (7/10 : ℚ) ≠ 1/2 := by
  decide

/-- **C7 (amended)** — as the claim, except that a string which parses as a
float already in `[0,1]` also passes through as its parsed value (only
strings that fail to parse, or parse out of `[0,1]`, fall back to 0.5). -/
theorem claim_C7_amended :
    (∀ s, (stripWs s).map Char.toUpper = "HIGH".toList →
      PromptBuilder.norm_confidence (.str s) = 8/10) ∧
    (∀ s, (stripWs s).map Char.toUpper = "MEDIUM".toList →
      PromptBuilder.norm_confidence (.str s) = 6/10) ∧
    (∀ s, (stripWs s).map Char.toUpper = "LOW".toList →
      PromptBuilder.norm_confidence (.str s) = 4/10) ∧
    (∀ q : ℚ, 0 ≤ q → q ≤ 1 → PromptBuilder.norm_confidence (.float (.fin q)) = q) ∧
    (∀ q : ℚ, ¬(0 ≤ q ∧ q ≤ 1) → PromptBuilder.norm_confidence (.float (.fin q)) = 1/2) ∧
    (∀ f : PF, f.isFinite = false → PromptBuilder.norm_confidence (.float f) = 1/2) ∧
    (∀ s, (stripWs s).map Char.toUpper ≠ "HIGH".toList →
      (stripWs s).map Char.toUpper ≠ "MEDIUM".toList →
      (stripWs s).map Char.toUpper ≠ "LOW".toList →
      PromptBuilder.norm_confidence (.str s) =
        (match pyFloatOfString s with
          | some (.fin q) => if 0 ≤ q ∧ q ≤ 1 then q else 1/2
          | _ => 1/2)) ∧
    (PromptBuilder.norm_confidence .none = 1/2) ∧
    (∀ xs, PromptBuilder.norm_confidence (.list xs) = 1/2) ∧
    (∀ xs, PromptBuilder.norm_confidence (.dict xs) = 1/2) ∧
    (PromptBuilder.norm_confidence (.float (.fin (73/100))) = 73/100) ∧
    (PromptBuilder.norm_confidence (.float (.fin (15/10))) = 1/2) ∧
    (PromptBuilder.norm_confidence (.str "garbage") = 1/2) := by
  refine ⟨?_, ?_, ?_, ?_, ?_, ?_, ?_, by decide, fun xs => rfl, fun xs => rfl,
    by decide, by decide, by decide⟩
  · intro s hs
    simp [PromptBuilder.norm_confidence, hs]
  · intro s hs
    simp [PromptBuilder.norm_confidence, hs]
  · intro s hs
    simp [PromptBuilder.norm_confidence, hs]
  · intro q h1 h2
    simp [PromptBuilder.norm_confidence, h1, h2]
  · intro q h
    simp [PromptBuilder.norm_confidence, h]
  · intro f hf
    cases f with
    | fin q => simp [PF.isFinite] at hf
    | pinf => decide
    | ninf => decide
    | nan => decide
  · intro s h1 h2 h3
    rw [show "HIGH".toList = ['H', 'I', 'G', 'H'] from rfl] at h1
    rw [show "MEDIUM".toList = ['M', 'E', 'D', 'I', 'U', 'M'] from rfl] at h2
    rw [show "LOW".toList = ['L', 'O', 'W'] from rfl] at h3
    cases hp : pyFloatOfString s with
    | none => simp [PromptBuilder.norm_confidence, h1, h2, h3, hp]
    | some v => cases v <;> simp [PromptBuilder.norm_confidence, h1, h2, h3, hp]

/-- Witness for C7 at concrete inputs. -/
theorem claim_C7_witness :
    PromptBuilder.norm_confidence (.str " hIgh ") = 8/10 ∧
    PromptBuilder.norm_confidence (.float (.fin (73/100))) = 73/100 ∧
    PromptBuilder.norm_confidence (.float (.fin (3/2))) = 1/2 ∧
    PromptBuilder.norm_confidence (.float .nan) = 1/2 ∧
    PromptBuilder.norm_confidence (.str "garbage") =
      (match pyFloatOfString "garbage" with
        | some (.fin q) => if 0 ≤ q ∧ q ≤ 1 then q else 1/2
        | _ => 1/2) :=
  ⟨claim_C7_amended.1 " hIgh " (by decide),
    claim_C7_amended.2.2.2.1 (73/100) (by norm_num) (by norm_num),
    claim_C7_amended.2.2.2.2.1 (3/2) (by norm_num),
    claim_C7_amended.2.2.2.2.2.1 .nan (by decide),
    claim_C7_amended.2.2.2.2.2.2.1 "garbage" (by decide) (by decide) (by decide)⟩

/-- **C5 counterexample** — `_round` maps a NaN input to NaN (Python's
`round(nan, n)` returns NaN without raising), so the coercion both fails to
return `0.0` on a non-finite input and returns a non-finite value. -/
theorem claim_C5_counterexample :
    PromptBuilder._round (.float .nan) 4 = .nan ∧ (PF.nan).isFinite = false := by
  decide

/-- **C5 (amended)** — `_to_float` is total and returns a finite value whenever
its default is finite, with every error, infinity, NaN or non-numeric input
collapsing to the default; `_round` (and `_get` with a digit count) never
raises and never returns an infinity, and returns `0.0` on every error or
infinity, but it propagates NaN: its result is NaN exactly when the input
coerces to NaN.  `_get` on a dict container never raises, and a missing key
yields the supplied default. -/
theorem claim_C5_amended :
    (∀ x d, d.isFinite = true → (PromptBuilder.to_float x d).isFinite = true) ∧
    (∀ x d e, pyFloat x = .error e → PromptBuilder.to_float x d = d) ∧
    (∀ x d v, pyFloat x = .ok v → v.isFinite = false → PromptBuilder.to_float x d = d) ∧
    (∀ x n, PromptBuilder._round x n = .nan ↔ pyFloat x = .ok .nan) ∧
    (∀ x n, PromptBuilder._round x n ≠ .pinf ∧ PromptBuilder._round x n ≠ .ninf) ∧
    (∀ x n e, pyFloat x = .error e → PromptBuilder._round x n = .fin 0) ∧
    (∀ x n, pyFloat x = .ok .pinf ∨ pyFloat x = .ok .ninf →
      PromptBuilder._round x n = .fin 0) ∧
    (∀ xs k dflt n, ∃ v, PromptBuilder._get (.dict xs) k dflt n = .ok v) ∧
    (∀ xs k q, xs.lookup k = Option.none →
      PromptBuilder._get (.dict xs) k (.float (.fin q)) Option.none = .ok (.fin q)) := by
  refine ⟨?_, ?_, ?_, ?_, ?_, ?_, ?_, ?_, ?_⟩
  · intro x d hd
    unfold PromptBuilder.to_float
    cases h : pyFloat x with
    | ok v =>
      by_cases hv : v.isFinite = true
      · simp [hv]
      · simpa [hv] using hd
    | error e => exact hd
  · intro x d e h
    simp [PromptBuilder.to_float, h]
  · intro x d v h hv
    simp [PromptBuilder.to_float, h, hv]
  · intro x n
    unfold PromptBuilder._round
    cases h : pyFloat x with
    | ok v => cases v <;> simp [roundPF]
    | error e => simp [roundPF]
  · intro x n
    unfold PromptBuilder._round
    cases h : pyFloat x with
    | ok v => cases v <;> simp [roundPF]
    | error e => simp
  · intro x n e h
    simp [PromptBuilder._round, h]
  · intro x n h
    rcases h with h | h <;> simp [PromptBuilder._round, h, roundPF]
  · intro xs k dflt n
    cases n with
    | none => exact ⟨_, rfl⟩
    | some m => exact ⟨_, rfl⟩
  · intro xs k q h
    simp [PromptBuilder._get, PyVal.get, h, PromptBuilder.to_float, pyFloat]

/-- Witness for C5 at concrete inputs. -/
theorem claim_C5_witness :
    (PromptBuilder.to_float (.str "oops") (.fin 0)).isFinite = true ∧
    PromptBuilder.to_float (.float .pinf) (.fin 0) = .fin 0 ∧
    (PromptBuilder._round (.float .nan) 2 = .nan ↔ pyFloat (.float .nan) = .ok .nan) ∧
    PromptBuilder._round (.str "zzz") 2 = .fin 0 ∧
    PromptBuilder._round (.float .pinf) 2 = .fin 0 ∧
    PromptBuilder._get (.dict []) "missing" (.float (.fin 0)) Option.none = .ok (.fin 0) :=
  ⟨claim_C5_amended.1 (.str "oops") (.fin 0) (by decide),
    claim_C5_amended.2.2.1 (.float .pinf) (.fin 0) .pinf (by decide) (by decide),
    claim_C5_amended.2.2.2.1 (.float .nan) 2,
    claim_C5_amended.2.2.2.2.2.1 (.str "zzz") 2 "ValueError" (by decide),
    claim_C5_amended.2.2.2.2.2.2.1 (.float .pinf) 2 (Or.inl (by decide)),
    claim_C5_amended.2.2.2.2.2.2.2.2 [] "missing" 0 rfl⟩

open Pandas PromptBuilder

theorem getD_drop (l : List α) (k j : ℕ) (d : α) (h : k + j < l.length) :
    (l.drop k).getD j d = l.getD (k + j) d := by
  rw [List.getD_eq_getElem _ _ (by simp; omega), List.getD_eq_getElem _ _ h]
  exact List.getElem_drop ..

theorem getD_take (l : List α) (k j : ℕ) (d : α) (h1 : j < k) (h2 : j < l.length) :
    (l.take k).getD j d = l.getD j d := by
  rw [List.getD_eq_getElem _ _ (by simp; omega), List.getD_eq_getElem _ _ h2]
  exact List.getElem_take ..

theorem pdTail_length (xs : List α) (n : ℕ) : (pdTail n xs).length = min n xs.length := by
  simp [pdTail]; omega

theorem pdTail_getD (xs : List α) (n j : ℕ) (d : α) (h : j < min n xs.length) :
    (pdTail n xs).getD j d = xs.getD (xs.length - n + j) d := by
  unfold pdTail
  rw [getD_drop _ _ _ _ (by omega)]

theorem getD_range_map (f : ℕ → α) (n i : ℕ) (d : α) (h : i < n) :
    ((List.range n).map f).getD i d = f i := by
  rw [List.getD_eq_getElem _ _ (by simpa using h)]
  simp

theorem getD_map (f : α → β) (l : List α) (i : ℕ) (d1 : α) (d2 : β) (h : i < l.length) :
    (l.map f).getD i d2 = f (l.getD i d1) := by
  rw [List.getD_eq_getElem _ _ (by simpa using h), List.getD_eq_getElem _ _ h]
  simp

theorem getD_zipWith (f : α → β → γ) (l1 : List α) (l2 : List β) (i : ℕ)
    (d1 : α) (d2 : β) (d3 : γ) (h1 : i < l1.length) (h2 : i < l2.length) :
    (List.zipWith f l1 l2).getD i d3 = f (l1.getD i d1) (l2.getD i d2) := by
  rw [List.getD_eq_getElem _ _ (by simp; omega), List.getD_eq_getElem _ _ h1,
    List.getD_eq_getElem _ _ h2]
  exact List.getElem_zipWith

theorem getD_zip (l1 : List α) (l2 : List β) (i : ℕ) (d1 : α) (d2 : β)
    (h1 : i < l1.length) (h2 : i < l2.length) :
    (l1.zip l2).getD i (d1, d2) = (l1.getD i d1, l2.getD i d2) := by
  rw [List.getD_eq_getElem _ _ (by simp; omega), List.getD_eq_getElem _ _ h1,
    List.getD_eq_getElem _ _ h2]
  exact List.getElem_zip

theorem windowEnd_length (xs : List ℚ) (w i : ℕ) (hi : i < xs.length) (hw : w ≤ i + 1) :
    (windowEnd xs w i).length = w := by
  simp [windowEnd]; omega

theorem forall_windowEnd (xs : List ℚ) (w i : ℕ) (hi : i < xs.length) (hw : w ≤ i + 1)
    (P : ℚ → Prop) :
    (∀ x ∈ windowEnd xs w i, P x) ↔ ∀ t, i + 1 - w ≤ t → t ≤ i → P (xs.getD t 0) := by
  have hlen := windowEnd_length xs w i hi hw
  constructor
  · intro h t ht1 ht2
    have hp : t - (i + 1 - w) < (windowEnd xs w i).length := by omega
    have hm : (windowEnd xs w i).getD (t - (i + 1 - w)) 0 ∈ windowEnd xs w i := by
      rw [List.getD_eq_getElem _ _ hp]
      exact List.getElem_mem _
    have := h _ hm
    rwa [windowEnd, getD_drop _ _ _ _ (by simp; omega),
      getD_take _ _ _ _ (by omega) (by omega), show i + 1 - w + (t - (i + 1 - w)) = t by omega] at this
  · intro h x hx
    rw [List.mem_iff_getElem] at hx
    obtain ⟨p, hp, rfl⟩ := hx
    rw [← List.getD_eq_getElem _ 0 hp, windowEnd, getD_drop _ _ _ _ (by simp; omega),
      getD_take _ _ _ _ (by omega) (by omega)]
    exact h _ (by omega) (by omega)

theorem list_sum_eq_zero_iff (l : List ℚ) (h : ∀ x ∈ l, 0 ≤ x) :
    l.sum = 0 ↔ ∀ x ∈ l, x = 0 := by
  induction l with
  | nil => simp
  | cons a t ih =>
    have ha : 0 ≤ a := h a (by simp)
    have hts : 0 ≤ t.sum := List.sum_nonneg fun x hx => h x (by simp [hx])
    simp only [List.sum_cons, List.mem_cons]
    constructor
    · intro hs
      have h1 : a = 0 := by linarith
      have h2 : t.sum = 0 := by linarith
      intro x hx
      rcases hx with rfl | hx
      · exact h1
      · exact ((ih fun y hy => h y (by simp [hy])).mp h2) x hx
    · intro hall
      have h1 : a = 0 := hall a (Or.inl rfl)
      have h2 : t.sum = 0 := (ih fun y hy => h y (by simp [hy])).mpr fun x hx => hall x (Or.inr hx)
      rw [h1, h2, add_zero]

theorem closesOf_length (df : List Bar) : (closesOf df).length = df.length := by
  simp [closesOf]

theorem gains_length (cs : List ℚ) : (gains cs).length = cs.length := by simp [gains]

theorem losses_length (cs : List ℚ) : (losses cs).length = cs.length := by simp [losses]

theorem rollingMean_length (w : ℕ) (xs : List ℚ) :
    (rollingMean w xs).length = xs.length := by simp [rollingMean]

theorem rollingStd_length (sq : ℚ → ℚ) (w : ℕ) (xs : List ℚ) :
    (rollingStd sq w xs).length = xs.length := by simp [rollingStd]

theorem rsList_length (df : List Bar) : (rsList df).length = df.length := by
  simp [rsList, rollingMean_length, gains_length, losses_length, closesOf_length]

theorem rsiFull_length (df : List Bar) : (rsiFull df).length = df.length := by
  simp [rsiFull, rsList_length]

theorem ewmAux_length (a p : ℚ) (l : List ℚ) : (ewmAux a p l).length = l.length := by
  induction l generalizing p with
  | nil => rfl
  | cons x t ih => simp [ewmAux, ih]

theorem ewm_length (a : ℚ) (l : List ℚ) : (ewm a l).length = l.length := by
  cases l with
  | nil => rfl
  | cons x t => simp [ewm, ewmAux_length]

theorem macdLine_length (cs : List ℚ) : (macdLine cs).length = cs.length := by
  simp [macdLine, ewm_length]

theorem histLine_length (cs : List ℚ) : (histLine cs).length = cs.length := by
  simp [histLine, ewm_length, macdLine_length]

theorem kdjFold_length (kp dp : ℚ) (l : List ℚ) :
    (kdjFold kp dp l).length = l.length := by
  induction l generalizing kp dp with
  | nil => rfl
  | cons x t ih => simp [kdjFold, ih]

theorem rsvSeries_length (df : List Bar) (n : ℕ) :
    (rsvSeries df n).length = df.length := by simp [rsvSeries]

theorem lift2_length (f : ℚ → ℚ → ℚ) (l1 l2 : List (Option ℚ)) :
    (lift2 f l1 l2).length = min l1.length l2.length := by simp [lift2]

theorem rsi_arr_length (df : List Bar) :
    (rsi_arr df).length = if 30 ≤ df.length then 10 else 0 := by
  unfold rsi_arr
  split
  · simp only [List.length_map, pdTail_length, rsiFull_length]; omega
  · rfl

theorem macd_arr_length (df : List Bar) :
    (macd_arr df).length = if 30 ≤ df.length then 10 else 0 := by
  unfold macd_arr
  split
  · simp only [List.length_map, pdTail_length, macdLine_length, closesOf_length]; omega
  · rfl

theorem hist_arr_length (df : List Bar) :
    (hist_arr df).length = if 30 ≤ df.length then 10 else 0 := by
  unfold hist_arr
  split
  · simp only [List.length_map, pdTail_length, histLine_length, closesOf_length]; omega
  · rfl

theorem compute_kdj_series_length (df : List Bar) :
    (compute_kdj_series df 9).length = if 9 ≤ df.length then min df.length 10 else 0 := by
  by_cases h : 9 ≤ df.length
  · rw [if_pos h]
    unfold compute_kdj_series
    rw [if_neg (by omega)]
    simp only [List.length_map, pdTail_length, kdjFold_length, rsvSeries_length]
    omega
  · rw [if_neg h]
    unfold compute_kdj_series
    rw [if_pos (by omega)]
    rfl

theorem compute_boll_series_length (sq : ℚ → ℚ) (pdp : ℤ) (df : List Bar) :
    (compute_boll_series sq pdp df 20).length = if 20 ≤ df.length then 10 else 0 := by
  by_cases h : 20 ≤ df.length
  · rw [if_pos h]
    unfold compute_boll_series
    rw [if_neg (by omega)]
    simp only [List.length_map, List.length_zip, pdTail_length, lift2_length,
      rollingMean_length, rollingStd_length, closesOf_length]
    omega
  · rw [if_neg h]
    unfold compute_boll_series
    rw [if_pos (by omega)]
    rfl

theorem roundPF_eq_nan (v : PF) (n : ℤ) : roundPF v n = .nan ↔ v = .nan := by
  cases v <;> simp [roundPF]

theorem roundPF_ne_inf (v : PF) (n : ℤ) : roundPF v n ≠ .pinf ∧ roundPF v n ≠ .ninf := by
  cases v <;> simp [roundPF]

theorem div_fin_eq_nan (a b : ℚ) : PF.div (.fin a) (.fin b) = .nan ↔ b = 0 ∧ a = 0 := by
  show (if b = 0 then (if a = 0 then PF.nan else if a > 0 then PF.pinf else PF.ninf)
    else PF.fin (a / b)) = .nan ↔ b = 0 ∧ a = 0
  split_ifs <;> simp_all

theorem rsiVal_eq_nan (v : PF) :
    PF.sub (.fin 100) (PF.div (.fin 100) (PF.add (.fin 1) v)) = .nan ↔ v = .nan := by
  cases v with
  | fin q =>
    by_cases h : (1 : ℚ) + q = 0
    · simp [PF.add, PF.div, h, PF.sub]
    · simp [PF.add, PF.div, h, PF.sub]
  | pinf => simp [PF.add, PF.div, PF.sub]
  | ninf => simp [PF.add, PF.div, PF.sub]
  | nan => simp [PF.add, PF.div, PF.sub]

theorem gains_mem_nonneg (cs : List ℚ) : ∀ x ∈ gains cs, 0 ≤ x := by
  intro x hx
  rw [List.mem_iff_getElem] at hx
  obtain ⟨p, hp, rfl⟩ := hx
  simp only [gains, List.getElem_map, List.getElem_range]
  split_ifs <;> simp_all [le_of_lt]

theorem losses_mem_nonneg (cs : List ℚ) : ∀ x ∈ losses cs, 0 ≤ x := by
  intro x hx
  rw [List.mem_iff_getElem] at hx
  obtain ⟨p, hp, rfl⟩ := hx
  simp only [losses, List.getElem_map, List.getElem_range]
  split_ifs with h1 h2
  · exact le_refl 0
  · linarith
  · exact le_refl 0

theorem windowEnd_subset (xs : List ℚ) (w i : ℕ) :
    ∀ x ∈ windowEnd xs w i, x ∈ xs := by
  intro x hx
  exact List.mem_of_mem_take (List.mem_of_mem_drop hx)

theorem gains_getD_eq (cs : List ℚ) (t : ℕ) (h0 : t ≠ 0) (ht : t < cs.length) :
    (gains cs).getD t 0 =
      if cs.getD t 0 - cs.getD (t - 1) 0 > 0 then cs.getD t 0 - cs.getD (t - 1) 0 else 0 := by
  unfold gains
  rw [getD_range_map _ _ _ _ ht]
  simp [h0]

theorem losses_getD_eq (cs : List ℚ) (t : ℕ) (h0 : t ≠ 0) (ht : t < cs.length) :
    (losses cs).getD t 0 =
      if cs.getD t 0 - cs.getD (t - 1) 0 < 0 then -(cs.getD t 0 - cs.getD (t - 1) 0) else 0 := by
  unfold losses
  rw [getD_range_map _ _ _ _ ht]
  simp [h0]

/-- Alignment of the emitted RSI tail with bar indices: at `≥ 30` bars, the
`j`-th emitted value is the rounded RSI of the window ending at bar
`len - 10 + j` (hence oldest→newest). -/
theorem rsi_arr_getD_align (df : List Bar) (h30 : 30 ≤ df.length) (j : ℕ) (hj : j < 10) :
    (rsi_arr df).getD j (.fin 0) =
      roundPF ((rsiFull df).getD (df.length - 10 + j) .nan) 1 := by
  unfold rsi_arr
  rw [if_pos h30]
  rw [getD_map _ _ _ .nan _ (by rw [pdTail_length, rsiFull_length]; omega)]
  rw [pdTail_getD _ _ _ _ (by rw [rsiFull_length]; omega)]
  rw [rsiFull_length]

theorem rsi_entry_nan_iff (df : List Bar) (h30 : 30 ≤ df.length) (j : ℕ) (hj : j < 10) :
    ((rsi_arr df).getD j (.fin 0) = .nan ↔
      ∀ t, df.length - 10 + j - 13 ≤ t → t ≤ df.length - 10 + j →
        (closesOf df).getD t 0 = (closesOf df).getD (t - 1) 0) := by
  have hcs : (closesOf df).length = df.length := closesOf_length df
  have hi1 : 20 ≤ df.length - 10 + j := by omega
  have hi2 : df.length - 10 + j < df.length := by omega
  rw [rsi_arr_getD_align df h30 j hj, roundPF_eq_nan]
  unfold rsiFull
  rw [getD_map _ _ _ .nan _ (by rw [rsList_length]; omega)]
  rw [rsiVal_eq_nan]
  unfold rsList
  rw [getD_zipWith _ _ _ _ Option.none Option.none _
    (by rw [rollingMean_length, gains_length, hcs]; omega)
    (by rw [rollingMean_length, losses_length, hcs]; omega)]
  unfold rollingMean
  rw [getD_range_map _ _ _ _ (by rw [gains_length, hcs]; omega),
    getD_range_map _ _ _ _ (by rw [losses_length, hcs]; omega)]
  rw [if_pos (by omega), if_pos (by omega)]
  dsimp only
  rw [div_fin_eq_nan]
  rw [div_eq_zero_iff, div_eq_zero_iff]
  have h14 : ((14 : ℕ) : ℚ) ≠ 0 := by norm_num
  simp only [h14, or_false]
  rw [list_sum_eq_zero_iff _ (fun x hx => losses_mem_nonneg _ x (windowEnd_subset _ _ _ x hx)),
    list_sum_eq_zero_iff _ (fun x hx => gains_mem_nonneg _ x (windowEnd_subset _ _ _ x hx))]
  rw [forall_windowEnd _ _ _ (by rw [losses_length, hcs]; omega) (by omega),
    forall_windowEnd _ _ _ (by rw [gains_length, hcs]; omega) (by omega)]
  constructor
  · rintro ⟨hl, hg⟩ t ht1 ht2
    have h0 : t ≠ 0 := by omega
    have htl : t < (closesOf df).length := by omega
    have e1 := hg t (by omega) (by omega)
    have e2 := hl t (by omega) (by omega)
    rw [gains_getD_eq _ _ h0 htl] at e1
    rw [losses_getD_eq _ _ h0 htl] at e2
    by_cases hd : (closesOf df).getD t 0 - (closesOf df).getD (t - 1) 0 > 0
    · rw [if_pos hd] at e1; linarith
    · by_cases hd2 : (closesOf df).getD t 0 - (closesOf df).getD (t - 1) 0 < 0
      · rw [if_pos hd2] at e2; linarith
      · linarith [le_of_not_lt hd, le_of_not_lt hd2]
  · intro h
    constructor
    · intro t ht1 ht2
      have h0 : t ≠ 0 := by omega
      have htl : t < (closesOf df).length := by omega
      have := h t (by omega) (by omega)
      rw [losses_getD_eq _ _ h0 htl]
      rw [if_neg (by rw [this]; simp)]
    · intro t ht1 ht2
      have h0 : t ≠ 0 := by omega
      have htl : t < (closesOf df).length := by omega
      have := h t (by omega) (by omega)
      rw [gains_getD_eq _ _ h0 htl]
      rw [if_neg (by rw [this]; simp)]

theorem rollingMean_getD (w : ℕ) (xs : List ℚ) (i : ℕ) (h : i < xs.length) :
    (rollingMean w xs).getD i Option.none =
      if w ≤ i + 1 then some ((windowEnd xs w i).sum / w) else Option.none := by
  unfold rollingMean
  rw [getD_range_map _ _ _ _ h]

theorem rollingStd_getD (sq : ℚ → ℚ) (w : ℕ) (xs : List ℚ) (i : ℕ) (h : i < xs.length) :
    (rollingStd sq w xs).getD i Option.none =
      if w ≤ i + 1 then some (sq (sampleVar (windowEnd xs w i))) else Option.none := by
  unfold rollingStd
  rw [getD_range_map _ _ _ _ h]

theorem roundPriceOpt_eq_nan (pdp : ℤ) (v : Option ℚ) :
    roundPriceOpt pdp v = .nan ↔ v = Option.none := by
  cases v <;> simp [roundPriceOpt]

theorem boll_entry_nan_iff (sq : ℚ → ℚ) (pdp : ℤ) (df : List Bar)
    (h20 : 20 ≤ df.length) (j : ℕ) (hj : j < 10) :
    ((((compute_boll_series sq pdp df 20).getD j ⟨.fin 0, .fin 0, .fin 0⟩).upper = .nan)
        ↔ df.length + j < 29) ∧
    ((((compute_boll_series sq pdp df 20).getD j ⟨.fin 0, .fin 0, .fin 0⟩).middle = .nan)
        ↔ df.length + j < 29) ∧
    ((((compute_boll_series sq pdp df 20).getD j ⟨.fin 0, .fin 0, .fin 0⟩).lower = .nan)
        ↔ df.length + j < 29) := by
  have hcs : (closesOf df).length = df.length := closesOf_length df
  have hup : (lift2 (fun m s => m + s * 2) (rollingMean 20 (closesOf df))
      (rollingStd sq 20 (closesOf df))).length = df.length := by
    rw [lift2_length, rollingMean_length, rollingStd_length, hcs]; omega
  have hlo : (lift2 (fun m s => m - s * 2) (rollingMean 20 (closesOf df))
      (rollingStd sq 20 (closesOf df))).length = df.length := by
    rw [lift2_length, rollingMean_length, rollingStd_length, hcs]; omega
  have hsma : (rollingMean 20 (closesOf df)).length = df.length := by
    rw [rollingMean_length, hcs]
  unfold compute_boll_series
  rw [if_neg (by omega)]
  dsimp only
  rw [getD_map _ _ _ (Option.none, Option.none, Option.none) _
    (by rw [List.length_zip, List.length_zip, pdTail_length, pdTail_length, pdTail_length,
      hup, hlo, hsma]; omega)]
  rw [getD_zip _ _ _ Option.none (Option.none, Option.none)
    (by rw [pdTail_length, hup]; omega)
    (by rw [List.length_zip, pdTail_length, pdTail_length, hsma, hlo]; omega)]
  rw [getD_zip _ _ _ Option.none Option.none
    (by rw [pdTail_length, hsma]; omega)
    (by rw [pdTail_length, hlo]; omega)]
  rw [pdTail_getD _ _ _ _ (by rw [hup]; omega),
    pdTail_getD _ _ _ _ (by rw [hsma]; omega),
    pdTail_getD _ _ _ _ (by rw [hlo]; omega)]
  rw [hup, hsma, hlo]
  dsimp only
  unfold lift2
  rw [getD_zipWith _ _ _ _ Option.none Option.none _
      (by rw [rollingMean_length, hcs]; omega)
      (by rw [rollingStd_length, hcs]; omega),
    getD_zipWith _ _ _ _ Option.none Option.none _
      (by rw [rollingMean_length, hcs]; omega)
      (by rw [rollingStd_length, hcs]; omega)]
  rw [rollingMean_getD _ _ _ (by rw [hcs]; omega),
    rollingStd_getD _ _ _ _ (by rw [hcs]; omega)]
  by_cases hc : 20 ≤ df.length - 10 + j + 1
  · rw [if_pos hc, if_pos hc]
    dsimp only
    simp only [roundPriceOpt]
    refine ⟨?_, ?_, ?_⟩ <;> simp <;> omega
  · rw [if_neg hc, if_neg hc]
    dsimp only
    simp only [roundPriceOpt]
    refine ⟨?_, ?_, ?_⟩ <;> simp <;> omega

/-- Alignment of the emitted MACD tail with bar indices. -/
theorem macd_arr_getD_align (df : List Bar) (h30 : 30 ≤ df.length) (j : ℕ) (hj : j < 10) :
    (macd_arr df).getD j 0 =
      pyRound ((macdLine (closesOf df)).getD (df.length - 10 + j) 0) 4 := by
  unfold macd_arr
  rw [if_pos h30]
  rw [getD_map _ _ _ 0 _ (by rw [pdTail_length, macdLine_length, closesOf_length]; omega)]
  rw [pdTail_getD _ _ _ _ (by rw [macdLine_length, closesOf_length]; omega)]
  rw [macdLine_length, closesOf_length]

/-- Alignment of the emitted histogram tail with bar indices. -/
theorem hist_arr_getD_align (df : List Bar) (h30 : 30 ≤ df.length) (j : ℕ) (hj : j < 10) :
    (hist_arr df).getD j 0 =
      pyRound ((histLine (closesOf df)).getD (df.length - 10 + j) 0) 4 := by
  unfold hist_arr
  rw [if_pos h30]
  rw [getD_map _ _ _ 0 _ (by rw [pdTail_length, histLine_length, closesOf_length]; omega)]
  rw [pdTail_getD _ _ _ _ (by rw [histLine_length, closesOf_length]; omega)]
  rw [histLine_length, closesOf_length]

/-- Alignment of the emitted KDJ tail with the smoothing recurrence. -/
theorem kdj_getD_align (df : List Bar) (h9 : 9 ≤ df.length) (j : ℕ)
    (hj : j < min df.length 10) :
    (compute_kdj_series df 9).getD j ⟨0, 0, 0⟩ =
      ⟨pyRound ((kdjFold 50 50 (rsvSeries df 9)).getD (df.length - 10 + j) (0, 0, 0)).1 1,
        pyRound ((kdjFold 50 50 (rsvSeries df 9)).getD (df.length - 10 + j) (0, 0, 0)).2.1 1,
        pyRound ((kdjFold 50 50 (rsvSeries df 9)).getD (df.length - 10 + j) (0, 0, 0)).2.2 1⟩ := by
  unfold compute_kdj_series
  rw [if_neg (by omega)]
  rw [getD_map _ _ _ (0, 0, 0) _
    (by rw [pdTail_length, kdjFold_length, rsvSeries_length]; omega)]
  rw [pdTail_getD _ _ _ _ (by rw [kdjFold_length, rsvSeries_length]; omega)]
  rw [kdjFold_length, rsvSeries_length]

/-- `rsi_arr` never emits an infinity (an infinite RS saturates the RSI at 100
and `round` of an infinity is caught to `0.0`; only NaN survives rounding). -/
theorem rsi_arr_no_inf (df : List Bar) :
    ∀ x ∈ rsi_arr df, x ≠ .pinf ∧ x ≠ .ninf := by
  intro x hx
  unfold rsi_arr at hx
  split at hx
  · rw [List.mem_map] at hx
    obtain ⟨y, _, rfl⟩ := hx
    exact roundPF_ne_inf y 1
  · simp at hx

/-- **C1 counterexample** — the claim fails at a 9-row dataframe: it requires
"exactly 10 entries at 9 or more rows" for the KDJ series, but the source can
emit only one sample per bar, so 9 rows yield 9 samples. -/
theorem claim_C1_counterexample :
    9 ≤ (List.replicate 9 (⟨100, 100, 100, 100, 1⟩ : Bar)).length ∧
    (compute_kdj_series (List.replicate 9 ⟨100, 100, 100, 100, 1⟩) 9).length = 9 := by
  decide

/-- **C1 (amended)** — for every timeframe block built from a bar dataframe:
the rsi, macd and histogram series are empty below 30 rows and have exactly 10
entries at 30 or more rows; the kdj series is empty below 9 rows and has
`min(rows, 10)` entries at 9 or more rows (so exactly 10 only from 10 rows
up); the boll series is empty below 20 rows and has exactly 10 entries at 20
or more rows (all lengths are thus at most 10).  Every series is aligned
oldest→newest: the `j`-th emitted entry is the (rounded) pipeline value at bar
index `len − 10 + j`.  The macd, histogram and kdj entries are always defined
numbers (they are exact rationals in this model), and rsi never emits an
infinity; but NaN padding is possible: an rsi entry is NaN exactly when all
closes of its 15-bar window are equal (a 0/0 gain/loss ratio), and a boll
entry is NaN exactly when its 20-bar window precedes the data start, which
happens for the first `29 − rows` entries when `20 ≤ rows ≤ 28`. -/
theorem claim_C1_amended (df : List Bar) (sq : ℚ → ℚ) (pdp : ℤ) :
    ((rsi_arr df).length = if 30 ≤ df.length then 10 else 0) ∧
    ((macd_arr df).length = if 30 ≤ df.length then 10 else 0) ∧
    ((hist_arr df).length = if 30 ≤ df.length then 10 else 0) ∧
    ((compute_kdj_series df 9).length =
      if 9 ≤ df.length then min df.length 10 else 0) ∧
    ((compute_boll_series sq pdp df 20).length =
      if 20 ≤ df.length then 10 else 0) ∧
    (∀ x ∈ rsi_arr df, x ≠ .pinf ∧ x ≠ .ninf) ∧
    (30 ≤ df.length → ∀ j, j < 10 →
      ((rsi_arr df).getD j (.fin 0) = .nan ↔
        ∀ t, df.length - 10 + j - 13 ≤ t → t ≤ df.length - 10 + j →
          (closesOf df).getD t 0 = (closesOf df).getD (t - 1) 0)) ∧
    (30 ≤ df.length → ∀ j, j < 10 →
      (rsi_arr df).getD j (.fin 0) =
        roundPF ((rsiFull df).getD (df.length - 10 + j) .nan) 1) ∧
    (30 ≤ df.length → ∀ j, j < 10 →
      (macd_arr df).getD j 0 =
        pyRound ((macdLine (closesOf df)).getD (df.length - 10 + j) 0) 4) ∧
    (30 ≤ df.length → ∀ j, j < 10 →
      (hist_arr df).getD j 0 =
        pyRound ((histLine (closesOf df)).getD (df.length - 10 + j) 0) 4) ∧
    (9 ≤ df.length → ∀ j, j < min df.length 10 →
      (compute_kdj_series df 9).getD j ⟨0, 0, 0⟩ =
        ⟨pyRound ((kdjFold 50 50 (rsvSeries df 9)).getD (df.length - 10 + j) (0, 0, 0)).1 1,
          pyRound ((kdjFold 50 50 (rsvSeries df 9)).getD (df.length - 10 + j) (0, 0, 0)).2.1 1,
          pyRound ((kdjFold 50 50 (rsvSeries df 9)).getD (df.length - 10 + j) (0, 0, 0)).2.2 1⟩) ∧
    (20 ≤ df.length → ∀ j, j < 10 →
      ((((compute_boll_series sq pdp df 20).getD j ⟨.fin 0, .fin 0, .fin 0⟩).upper = .nan
          ↔ df.length + j < 29) ∧
        ((((compute_boll_series sq pdp df 20).getD j ⟨.fin 0, .fin 0, .fin 0⟩).middle = .nan)
          ↔ df.length + j < 29) ∧
        ((((compute_boll_series sq pdp df 20).getD j ⟨.fin 0, .fin 0, .fin 0⟩).lower = .nan)
          ↔ df.length + j < 29))) :=
  ⟨rsi_arr_length df, macd_arr_length df, hist_arr_length df,
    compute_kdj_series_length df, compute_boll_series_length sq pdp df,
    rsi_arr_no_inf df,
    fun h30 j hj => rsi_entry_nan_iff df h30 j hj,
    fun h30 j hj => rsi_arr_getD_align df h30 j hj,
    fun h30 j hj => macd_arr_getD_align df h30 j hj,
    fun h30 j hj => hist_arr_getD_align df h30 j hj,
    fun h9 j hj => kdj_getD_align df h9 j hj,
    fun h20 j hj => boll_entry_nan_iff sq pdp df h20 j hj⟩

/-- Witness for C1 on a 30-bar dataframe with rising closes. -/
theorem claim_C1_witness :
    (30 ≤ dfW30.length) ∧
    ((rsi_arr dfW30).length = if 30 ≤ dfW30.length then 10 else 0) ∧
    ((compute_kdj_series dfW30 9).length =
      if 9 ≤ dfW30.length then min dfW30.length 10 else 0) ∧
    ((rsi_arr dfW30).getD 0 (.fin 0) = .nan ↔
      ∀ t, dfW30.length - 10 + 0 - 13 ≤ t → t ≤ dfW30.length - 10 + 0 →
        (closesOf dfW30).getD t 0 = (closesOf dfW30).getD (t - 1) 0) ∧
    ((((compute_boll_series id 2 dfW30 20).getD 0 ⟨.fin 0, .fin 0, .fin 0⟩).upper = .nan
      ↔ dfW30.length + 0 < 29)) :=
  ⟨by decide, (claim_C1_amended dfW30 id 2).1,
    (claim_C1_amended dfW30 id 2).2.2.2.1,
    (claim_C1_amended dfW30 id 2).2.2.2.2.2.2.1 (by decide) 0 (by decide),
    ((claim_C1_amended dfW30 id 2).2.2.2.2.2.2.2.2.2.2.2 (by decide) 0 (by decide)).1⟩

/-- Membership in a conditional singleton. -/
theorem mem_ite_singleton {c : Prop} [Decidable c] {x a : String} :
    x ∈ (if c then [a] else []) ↔ c ∧ x = a := by
  split <;> simp_all

/-- A conditional singleton is a sublist of the singleton. -/
theorem ite_singleton_sublist {c : Prop} [Decidable c] {a : String} :
    (if c then [a] else []).Sublist [a] := by
  split <;> simp

/-- The concatenation of the five conditional tags is a sublist of the fixed
evaluation order. -/
theorem sublist_eval_order {c1 c2 c3 cc c4 c5 : Prop} [Decidable c1]
    [Decidable c2] [Decidable c3] [Decidable cc] [Decidable c4] [Decidable c5] :
    ((if c1 then ["Doji"] else []) ++ (if c2 then ["Hammer"] else []) ++
      (if c3 then ["ShootingStar"] else []) ++
      (if cc then (if c4 then ["BullishEngulfing"] else []) ++
        (if c5 then ["BearishEngulfing"] else []) else [])).Sublist
      ["Doji", "Hammer", "ShootingStar", "BullishEngulfing", "BearishEngulfing"] := by
  split_ifs <;> decide

/-- **C6 counterexample** — the claim's second example is wrong on the code:
the bar `open=100, high=100.2, low=90, close=100` has `close = open`, so the
strict `close > open` conjunct of the Hammer rule fails (and its zero body
makes it a Doji): the detector yields `["Doji"]`, not `Hammer`. -/
theorem claim_C6_counterexample :
    PromptBuilder.detect_candlestick_patterns [⟨100, 100 + 2/10, 90, 100, 0⟩] = ["Doji"] ∧
    "Hammer" ∉ PromptBuilder.detect_candlestick_patterns [⟨100, 100 + 2/10, 90, 100, 0⟩] := by
  decide

/-- **C6 (amended)** — as the claim: the result is an ordered sublist of the
fixed evaluation order Doji, Hammer, ShootingStar, BullishEngulfing,
BearishEngulfing, each tag present iff its threshold condition over body,
upper-shadow, lower-shadow and `range = max(high-low, 1e-9)` holds, and the
bar `open=100, high=101, low=99, close=100.05` yields `["Doji"]` — except
that the Hammer example needs a close strictly above the open: the bar
`open=100, high=100.2, low=90, close=100.05` yields Hammer (alongside a Doji
tag for its tiny body). -/
theorem claim_C6_amended (tail : List Candle) :
    (PromptBuilder.detect_candlestick_patterns tail).Sublist
      ["Doji", "Hammer", "ShootingStar", "BullishEngulfing", "BearishEngulfing"] ∧
    (tail = [] → PromptBuilder.detect_candlestick_patterns tail = []) ∧
    (∀ last, tail.getLast? = some last →
      ("Doji" ∈ PromptBuilder.detect_candlestick_patterns tail ↔
        PromptBuilder.body last.O last.C ≤
          max (1/1000000000 : ℚ) (last.H - last.L) * (1/10)) ∧
      ("Hammer" ∈ PromptBuilder.detect_candlestick_patterns tail ↔
        PromptBuilder.lower last.O last.L last.C ≥
          max (1/1000000000 : ℚ) (last.H - last.L) * (1/2) ∧
        PromptBuilder.upper last.O last.H last.C ≤
          max (1/1000000000 : ℚ) (last.H - last.L) * (2/10) ∧
        last.C > last.O) ∧
      ("ShootingStar" ∈ PromptBuilder.detect_candlestick_patterns tail ↔
        PromptBuilder.upper last.O last.H last.C ≥
          max (1/1000000000 : ℚ) (last.H - last.L) * (1/2) ∧
        PromptBuilder.lower last.O last.L last.C ≤
          max (1/1000000000 : ℚ) (last.H - last.L) * (2/10) ∧
        last.C < last.O) ∧
      ("BullishEngulfing" ∈ PromptBuilder.detect_candlestick_patterns tail ↔
        2 ≤ tail.length ∧
        (tail.getD (tail.length - 2) ⟨0, 0, 0, 0, 0⟩).C <
          (tail.getD (tail.length - 2) ⟨0, 0, 0, 0, 0⟩).O ∧
        last.C > last.O ∧
        last.C ≥ max (tail.getD (tail.length - 2) ⟨0, 0, 0, 0, 0⟩).O
          (tail.getD (tail.length - 2) ⟨0, 0, 0, 0, 0⟩).C ∧
        last.O ≤ min (tail.getD (tail.length - 2) ⟨0, 0, 0, 0, 0⟩).O
          (tail.getD (tail.length - 2) ⟨0, 0, 0, 0, 0⟩).C) ∧
      ("BearishEngulfing" ∈ PromptBuilder.detect_candlestick_patterns tail ↔
        2 ≤ tail.length ∧
        (tail.getD (tail.length - 2) ⟨0, 0, 0, 0, 0⟩).C >
          (tail.getD (tail.length - 2) ⟨0, 0, 0, 0, 0⟩).O ∧
        last.C < last.O ∧
        last.O ≥ max (tail.getD (tail.length - 2) ⟨0, 0, 0, 0, 0⟩).O
          (tail.getD (tail.length - 2) ⟨0, 0, 0, 0, 0⟩).C ∧
        last.C ≤ min (tail.getD (tail.length - 2) ⟨0, 0, 0, 0, 0⟩).O
          (tail.getD (tail.length - 2) ⟨0, 0, 0, 0, 0⟩).C)) ∧
    (PromptBuilder.detect_candlestick_patterns [⟨100, 101, 99, 100 + 5/100, 0⟩] = ["Doji"]) ∧
    ("Hammer" ∈ PromptBuilder.detect_candlestick_patterns
      [⟨100, 100 + 2/10, 90, 100 + 5/100, 0⟩]) := by
  refine ⟨?_, ?_, ?_, ?_, ?_⟩
  case refine_4 => decide
  case refine_5 => decide
  · unfold PromptBuilder.detect_candlestick_patterns
    cases tail.getLast? with
    | none => simp
    | some last => exact sublist_eval_order
  · rintro rfl
    rfl
  · intro last hlast
    unfold PromptBuilder.detect_candlestick_patterns
    rw [hlast]
    simp only [List.mem_append, mem_ite_singleton]
    refine ⟨by simp, by simp, by simp, ?_, ?_⟩
    · by_cases h2 : 2 ≤ tail.length
      · simp only [ge_iff_le, h2, if_pos h2, List.mem_append, mem_ite_singleton]
        simp [and_assoc]
      · simp [h2, if_neg h2]
    · by_cases h2 : 2 ≤ tail.length
      · simp only [ge_iff_le, h2, if_pos h2, List.mem_append, mem_ite_singleton]
        simp [and_assoc]
      · simp [h2, if_neg h2]

/-- Witness for C6: a two-bar tail exercising the engulfing branch. -/
theorem claim_C6_witness :
    ("BullishEngulfing" ∈ PromptBuilder.detect_candlestick_patterns
        [⟨11, 20, 9, 10, 0⟩, ⟨19/2, 20, 9, 23/2, 0⟩] ↔
      2 ≤ ([⟨11, 20, 9, 10, 0⟩, ⟨19/2, 20, 9, 23/2, 0⟩] : List Candle).length ∧
      (10 : ℚ) < 11 ∧ (23/2 : ℚ) > 19/2 ∧ (23/2 : ℚ) ≥ max (11 : ℚ) 10 ∧
      (19/2 : ℚ) ≤ min (11 : ℚ) 10) ∧
    "BullishEngulfing" ∈ PromptBuilder.detect_candlestick_patterns
      [⟨11, 20, 9, 10, 0⟩, ⟨19/2, 20, 9, 23/2, 0⟩] := by
  have h := (claim_C6_amended [⟨11, 20, 9, 10, 0⟩, ⟨19/2, 20, 9, 23/2, 0⟩]).2.2.1
    ⟨19/2, 20, 9, 23/2, 0⟩ (by decide)
  exact ⟨h.2.2.2.1, h.2.2.2.1.mpr (by norm_num)⟩

theorem truthyE_notDf (v : PyVal) (h : notDf v = true) : v.truthyE = .ok v.truthy := by
  cases v <;> simp_all [notDf, PyVal.truthyE]

theorem ts_key_of_dict (xs : List (String × PyVal)) :
    ts_key (.dict xs) = .ok (tsVal (.dict xs)) := by
  rfl

theorem WFRecord_dict {r : PyVal} (h : WFRecord r = true) :
    ∃ xs, r = PyVal.dict xs := by
  cases r with
  | dict xs => exact ⟨xs, rfl⟩
  | none => simp [WFRecord] at h
  | bool b => simp [WFRecord] at h
  | int n => simp [WFRecord] at h
  | float f => simp [WFRecord] at h
  | str s => simp [WFRecord] at h
  | list xs => simp [WFRecord] at h
  | pydf rows => simp [WFRecord] at h

theorem WFRecord_parts {xs : List (String × PyVal)}
    (h : WFRecord (.dict xs) = true) :
    PyVal.hashable (symOf (.dict xs)) = true ∧
    notDf (getKey (.dict xs) "open_percent") = true ∧
    notDf (getKey (.dict xs) "reduce_percent") = true := by
  simp only [WFRecord, Bool.and_eq_true] at h
  exact ⟨h.1.1, h.1.2, h.2⟩

theorem mapM_ts_keys (recs : List PyVal) (h : ∀ r ∈ recs, WFRecord r = true) :
    (recs.mapM fun r => do let k ← ts_key r; pure (k, r)) =
      (Except.ok (recs.map fun r => (tsVal r, r)) : Except String (List (ℚ × PyVal))) := by
  induction recs with
  | nil => rfl
  | cons a t ih =>
    obtain ⟨xs, rfl⟩ := WFRecord_dict (h a (by simp))
    rw [List.mapM_cons]
    rw [show (do let k ← ts_key (.dict xs); pure (k, PyVal.dict xs) :
      Except String (ℚ × PyVal)) = .ok (tsVal (.dict xs), .dict xs) from rfl]
    rw [show (bind (.ok (tsVal (.dict xs), PyVal.dict xs)) :
      (ℚ × PyVal → Except String (List (ℚ × PyVal))) → Except String (List (ℚ × PyVal))) =
      fun f => f (tsVal (.dict xs), PyVal.dict xs) from rfl]
    rw [ih (fun r hr => h r (by simp [hr]))]
    rfl

theorem symOf_truthyE {xs : List (String × PyVal)}
    (h : WFRecord (.dict xs) = true) :
    (symOf (.dict xs)).truthyE = .ok (symOf (.dict xs)).truthy := by
  apply truthyE_notDf
  have := (WFRecord_parts h).1
  cases hv : symOf (.dict xs) <;> simp_all [PyVal.hashable, notDf]

theorem bucketInsert_ok {xs : List (String × PyVal)} (bs : List (PyVal × List PyVal))
    (h : WFRecord (.dict xs) = true) :
    bucketInsert bs (.dict xs) = .ok (bucketStep bs (.dict xs)) := by
  have hh := (WFRecord_parts h).1
  unfold bucketInsert
  rw [show (PyVal.dict xs).get "symbol" .none = .ok (symOf (.dict xs)) from rfl]
  simp only [bind, Except.bind]
  rw [symOf_truthyE h]
  by_cases ht : (symOf (.dict xs)).truthy
  · simp [ht, hh, bucketStep]
    rfl
  · simp [ht, bucketStep]
    rfl

theorem bucketsOf_ok (recs : List PyVal) (h : ∀ r ∈ recs, WFRecord r = true) :
    bucketsOf recs = .ok (recs.foldl bucketStep []) := by
  suffices H : ∀ bs, recs.foldlM bucketInsert bs = .ok (recs.foldl bucketStep bs) from H []
  induction recs with
  | nil => intro bs; rfl
  | cons a t ih =>
    intro bs
    obtain ⟨xs, rfl⟩ := WFRecord_dict (h a (by simp))
    rw [List.foldlM_cons, bucketInsert_ok bs (h _ (List.mem_cons_self _ _))]
    rw [show (bind (.ok (bucketStep bs (.dict xs))) :
      (List (PyVal × List PyVal) → Except String (List (PyVal × List PyVal))) →
        Except String (List (PyVal × List PyVal))) =
      fun f => f (bucketStep bs (.dict xs)) from rfl]
    rw [List.foldl_cons]
    exact ih (fun r hr => h r (by simp [hr])) _

theorem eqKey_str_iff (k : PyVal) (s : String) :
    PyVal.eqKey k (.str s) = true ↔ k = .str s := by
  cases k <;> simp [PyVal.eqKey]

theorem lookupGrouped_cons (kv : PyVal × List PyVal) (t : List (PyVal × List PyVal))
    (q : PyVal) :
    lookupGrouped (kv :: t) q =
      if PyVal.eqKey kv.1 q then some kv.2 else lookupGrouped t q := by
  by_cases h : PyVal.eqKey kv.1 q
  · simp [lookupGrouped, List.find?_cons_of_pos, h]
  · simp only [Bool.not_eq_true] at h
    simp [lookupGrouped, List.find?_cons_of_neg, h]

theorem lookupGrouped_addToBucket (bs : List (PyVal × List PyVal)) (k r : PyVal)
    (s : String) :
    lookupGrouped (addToBucket bs k r) (.str s) =
      if PyVal.eqKey k (.str s) then
        some ((lookupGrouped bs (.str s)).getD [] ++ [r])
      else lookupGrouped bs (.str s) := by
  induction bs with
  | nil =>
    by_cases hk : PyVal.eqKey k (.str s)
    · rw [if_pos hk]
      simp only [addToBucket, lookupGrouped_cons, hk, if_pos]
      simp [lookupGrouped]
    · rw [if_neg hk]
      simp only [addToBucket, lookupGrouped_cons]
      rw [if_neg hk]
  | cons kv t ih =>
    obtain ⟨k', rs⟩ := kv
    by_cases hk' : PyVal.eqKey k' k
    · simp only [addToBucket, hk', if_pos, lookupGrouped_cons]
      by_cases hs : PyVal.eqKey k' (.str s)
      · have hks : k' = .str s := (eqKey_str_iff k' s).mp hs
        subst hks
        have hk : k = .str s := by cases k <;> simp_all [PyVal.eqKey]
        simp [hk, PyVal.eqKey, lookupGrouped_cons]
      · have hknot : ¬ PyVal.eqKey k (.str s) = true := by
          intro hcon
          have hk : k = .str s := (eqKey_str_iff k s).mp hcon
          subst hk
          have : k' = .str s := by cases k' <;> simp_all [PyVal.eqKey]
          subst this
          simp [PyVal.eqKey] at hs
        rw [if_neg hknot]
        simp only [Bool.not_eq_true] at hs
        simp [lookupGrouped_cons, hs]
    · simp only [Bool.not_eq_true] at hk'
      simp only [addToBucket, hk', Bool.false_eq_true, if_false, lookupGrouped_cons]
      by_cases hs : PyVal.eqKey k' (.str s)
      · have hks : k' = .str s := (eqKey_str_iff k' s).mp hs
        subst hks
        have hknot : ¬ PyVal.eqKey k (.str s) = true := by
          intro hcon
          have hk : k = .str s := (eqKey_str_iff k s).mp hcon
          subst hk
          simp [PyVal.eqKey] at hk'
        rw [if_neg hknot]
        simp [hs]
      · simp only [hs, Bool.false_eq_true, if_false]
        exact ih

theorem clean_record_ok {xs : List (String × PyVal)}
    (h : WFRecord (.dict xs) = true) :
    clean_record (.dict xs) = .ok (cleanVal (.dict xs)) := by
  obtain ⟨-, h2, h3⟩ := WFRecord_parts h
  unfold clean_record
  simp only [show ∀ k, (PyVal.dict xs).get k .none =
    .ok ((xs.lookup k).getD .none) from fun k => rfl]
  simp only [bind, Except.bind]
  rw [show getKey (PyVal.dict xs) "open_percent" = (xs.lookup "open_percent").getD .none
    from rfl] at h2
  rw [show getKey (PyVal.dict xs) "reduce_percent" = (xs.lookup "reduce_percent").getD .none
    from rfl] at h3
  rw [truthyE_notDf _ h2, truthyE_notDf _ h3]
  rfl

theorem mapM_clean (l : List PyVal) (h : ∀ r ∈ l, WFRecord r = true) :
    l.mapM clean_record = (Except.ok (l.map cleanVal) : Except String (List PyVal)) := by
  induction l with
  | nil => rfl
  | cons a t ih =>
    obtain ⟨xs, rfl⟩ := WFRecord_dict (h a (by simp))
    rw [List.mapM_cons, clean_record_ok (h _ (List.mem_cons_self _ _))]
    rw [show (bind (.ok (cleanVal (.dict xs))) :
      (PyVal → Except String (List PyVal)) → Except String (List PyVal)) =
      fun f => f (cleanVal (.dict xs)) from rfl]
    rw [ih (fun r hr => h r (by simp [hr]))]
    rfl

theorem foldl_bucketStep_lookup (l : List PyVal) (s : String) :
    ∀ bs, lookupGrouped (l.foldl bucketStep bs) (.str s) =
      (match lookupGrouped bs (.str s),
          l.filter (fun r => PyVal.eqKey (symOf r) (.str s) && (symOf r).truthy) with
        | Option.none, [] => Option.none
        | Option.none, fs => some fs
        | some rs, fs => some (rs ++ fs)) := by
  induction l with
  | nil =>
    intro bs
    cases h : lookupGrouped bs (.str s) <;> simp [h]
  | cons r t ih =>
    intro bs
    rw [List.foldl_cons, List.filter_cons]
    by_cases ht : (symOf r).truthy
    · by_cases he : PyVal.eqKey (symOf r) (.str s)
      · -- matching truthy record: appended to the s-bucket
        simp only [he, ht, Bool.and_self, if_pos]
        rw [show bucketStep bs r = addToBucket bs (symOf r) r by simp [bucketStep, ht]]
        rw [ih]
        rw [lookupGrouped_addToBucket, if_pos he]
        cases h : lookupGrouped bs (.str s) <;>
          cases hf : t.filter (fun r => PyVal.eqKey (symOf r) (.str s) && (symOf r).truthy) <;>
          simp [h, hf]
      · simp only [Bool.not_eq_true] at he
        simp only [he, Bool.false_and, Bool.false_eq_true, if_false]
        rw [show bucketStep bs r = addToBucket bs (symOf r) r by simp [bucketStep, ht]]
        rw [ih]
        rw [lookupGrouped_addToBucket]
        rw [if_neg (by simp [he])]
    · simp only [Bool.not_eq_true] at ht
      simp only [ht, Bool.and_false, Bool.false_eq_true, if_false]
      rw [show bucketStep bs r = bs by simp [bucketStep, ht]]
      exact ih bs

theorem mem_sortedByTs {r : PyVal} {recs : List PyVal} (h : r ∈ sortedByTs recs) :
    r ∈ recs := by
  unfold sortedByTs at h
  rw [List.mem_map] at h
  obtain ⟨p, hp, rfl⟩ := h
  have := (List.mergeSort_perm (recs.map fun r => (tsVal r, r))
    (fun a b => decide (a.1 ≤ b.1))).mem_iff.mp hp
  rw [List.mem_map] at this
  obtain ⟨r0, hr0, rfl⟩ := this
  exact hr0

theorem sortedByTs_perm (recs : List PyVal) : (sortedByTs recs).Perm recs := by
  unfold sortedByTs
  have h := (List.mergeSort_perm (recs.map fun r => (tsVal r, r))
    (fun a b => decide (a.1 ≤ b.1))).map Prod.snd
  rw [List.map_map] at h
  have e : List.map (Prod.snd ∘ fun r => (tsVal r, r)) recs = recs := by
    simp [Function.comp_def]
  rw [e] at h
  exact h

theorem sortedByTs_pairwise (recs : List PyVal) :
    (sortedByTs recs).Pairwise fun a b => tsVal a ≤ tsVal b := by
  have hp := @List.sorted_mergeSort (ℚ × PyVal)
    (fun a b => decide (a.1 ≤ b.1))
    (fun a b c hab hbc => by
      simp only [decide_eq_true_eq] at *
      exact le_trans hab hbc)
    (fun a b => by
      simp only [Bool.or_eq_true, decide_eq_true_eq]
      exact le_total a.1 b.1)
    (recs.map fun r => (tsVal r, r))
  have hfst : ∀ p ∈ (recs.map fun r => (tsVal r, r)).mergeSort
      (fun a b => decide (a.1 ≤ b.1)), p.1 = tsVal p.2 := by
    intro p hp'
    have := (List.mergeSort_perm (recs.map fun r => (tsVal r, r))
      (fun a b => decide (a.1 ≤ b.1))).mem_iff.mp hp'
    rw [List.mem_map] at this
    obtain ⟨r0, _, rfl⟩ := this
    rfl
  unfold sortedByTs
  rw [List.pairwise_map]
  refine hp.imp_of_mem ?_
  intro a b ha hb hab
  simp only [decide_eq_true_eq] at hab
  rw [hfst a ha, hfst b hb] at hab
  exact hab

theorem tsVal_cleanVal (r : PyVal) : tsVal (cleanVal r) = tsVal r := rfl

theorem addToBucket_sublist (bs : List (PyVal × List PyVal)) (k r : PyVal)
    (P : List PyVal) (h : ∀ kv ∈ bs, kv.2.Sublist P) :
    ∀ kv ∈ addToBucket bs k r, kv.2.Sublist (P ++ [r]) := by
  induction bs with
  | nil =>
    intro kv hkv
    simp only [addToBucket, List.mem_singleton] at hkv
    subst hkv
    exact List.sublist_append_right P [r]
  | cons kv0 t ih =>
    obtain ⟨k0, rs0⟩ := kv0
    intro kv hkv
    simp only [addToBucket] at hkv
    split at hkv
    · rcases List.mem_cons.mp hkv with rfl | hkv2
      · exact (h (k0, rs0) (by simp)).append (List.Sublist.refl [r])
      · exact (h _ (by simp [hkv2])).trans (List.sublist_append_left P [r])
    · rcases List.mem_cons.mp hkv with rfl | hkv2
      · exact (h (k0, rs0) (by simp)).trans (List.sublist_append_left P [r])
      · exact ih (fun kv2 h2 => h kv2 (by simp [h2])) kv hkv2

theorem foldl_bucketStep_sublist (l : List PyVal) :
    ∀ (bs : List (PyVal × List PyVal)) (P : List PyVal),
      (∀ kv ∈ bs, kv.2.Sublist P) →
      ∀ kv ∈ l.foldl bucketStep bs, kv.2.Sublist (P ++ l) := by
  induction l with
  | nil =>
    intro bs P h kv hkv
    rw [List.append_nil]
    exact h kv hkv
  | cons r t ih =>
    intro bs P h kv hkv
    rw [List.foldl_cons] at hkv
    have step_h : ∀ kv2 ∈ bucketStep bs r, kv2.2.Sublist (P ++ [r]) := by
      intro kv2 h2
      unfold bucketStep at h2
      split at h2
      · exact addToBucket_sublist bs (symOf r) r P h kv2 h2
      · exact (h kv2 h2).trans (List.sublist_append_left P [r])
    have := ih (bucketStep bs r) (P ++ [r]) step_h kv hkv
    simpa [List.append_assoc] using this

theorem addToBucket_keys (bs : List (PyVal × List PyVal)) (k r : PyVal) :
    ∀ kv ∈ addToBucket bs k r, kv.1 = k ∨ ∃ kv0 ∈ bs, kv.1 = kv0.1 := by
  induction bs with
  | nil =>
    intro kv hkv
    simp only [addToBucket, List.mem_singleton] at hkv
    subst hkv
    exact Or.inl rfl
  | cons kv0 t ih =>
    obtain ⟨k0, rs0⟩ := kv0
    intro kv hkv
    simp only [addToBucket] at hkv
    split at hkv
    · rcases List.mem_cons.mp hkv with rfl | hkv'
      · exact Or.inr ⟨(k0, rs0), by simp, rfl⟩
      · exact Or.inr ⟨kv, by simp [hkv'], rfl⟩
    · rcases List.mem_cons.mp hkv with rfl | hkv'
      · exact Or.inr ⟨(k0, rs0), by simp, rfl⟩
      · rcases ih kv hkv' with h | ⟨kv2, h2, h3⟩
        · exact Or.inl h
        · exact Or.inr ⟨kv2, by simp [h2], h3⟩

theorem foldl_bucketStep_keys_truthy (l : List PyVal) :
    ∀ (bs : List (PyVal × List PyVal)), (∀ kv ∈ bs, kv.1.truthy = true) →
      ∀ kv ∈ l.foldl bucketStep bs, kv.1.truthy = true := by
  induction l with
  | nil => intro bs h kv hkv; exact h kv hkv
  | cons r t ih =>
    intro bs h kv hkv
    rw [List.foldl_cons] at hkv
    refine ih (bucketStep bs r) ?_ kv hkv
    intro kv2 h2
    unfold bucketStep at h2
    split at h2
    · rcases addToBucket_keys bs (symOf r) r kv2 h2 with h3 | ⟨kv0, h0, h3⟩
      · rw [h3]; assumption
      · rw [h3]; exact h kv0 h0
    · exact h kv2 h2

theorem except_bind_ok {α β : Type} (a : α) (f : α → Except String β) :
    (bind (Except.ok a) f : Except String β) = f a := rfl

theorem mapM_buckets_ok (bs : List (PyVal × List PyVal)) (N : ℕ)
    (h : ∀ kv ∈ bs, ∀ r ∈ kv.2, WFRecord r = true) :
    (bs.mapM fun kv => do
        let trimmed := kv.2.drop (kv.2.length - N)
        let cleaned ← trimmed.mapM clean_record
        pure (kv.1, cleaned) : Except String (List (PyVal × List PyVal))) =
      .ok (bs.map fun kv => (kv.1, (kv.2.drop (kv.2.length - N)).map cleanVal)) := by
  induction bs with
  | nil => rfl
  | cons kv t ih =>
    rw [List.mapM_cons]
    have hc := mapM_clean (kv.2.drop (kv.2.length - N))
      (fun r hr => h kv (by simp) r (List.mem_of_mem_drop hr))
    simp only [hc]
    rw [show (bind (.ok ((kv.2.drop (kv.2.length - N)).map cleanVal)) :
      (List PyVal → Except String (PyVal × List PyVal)) →
        Except String (PyVal × List PyVal)) =
      fun f => f ((kv.2.drop (kv.2.length - N)).map cleanVal) from rfl]
    rw [ih (fun kv2 h2 r hr => h kv2 (by simp [h2]) r hr)]
    rfl

theorem group_history_ok (recs : List PyVal) (N : ℕ)
    (h : ∀ r ∈ recs, WFRecord r = true) :
    group_history_by_symbol (.list recs) N =
      .ok (((sortedByTs recs).foldl bucketStep []).map fun kv =>
        (kv.1, (kv.2.drop (kv.2.length - N)).map cleanVal)) := by
  cases hrecs : recs with
  | nil => rfl
  | cons a t =>
    rw [← hrecs]
    have hne : recs ≠ [] := by rw [hrecs]; simp
    unfold group_history_by_symbol
    rw [show (PyVal.list recs).truthyE = .ok true by
      simp [PyVal.truthyE, PyVal.truthy, hrecs]]
    rw [except_bind_ok]
    simp only [Bool.not_true, Bool.false_eq_true, if_false]
    rw [mapM_ts_keys recs h]
    rw [except_bind_ok]
    have hWFs : ∀ r ∈ sortedByTs recs, WFRecord r = true :=
      fun r hr => h r (mem_sortedByTs hr)
    rw [show bucketsOf (((recs.map fun r => (tsVal r, r)).mergeSort
        fun a b => decide (a.1 ≤ b.1)).map Prod.snd) =
      .ok ((sortedByTs recs).foldl bucketStep []) from bucketsOf_ok _ hWFs]
    rw [except_bind_ok]
    have hmem : ∀ kv ∈ (sortedByTs recs).foldl bucketStep [], ∀ r ∈ kv.2,
        WFRecord r = true := by
      intro kv hkv r hr
      have := foldl_bucketStep_sublist (sortedByTs recs) [] []
        (by intro kv0 h0; simp at h0) kv hkv
      exact hWFs r (this.mem hr)
    rw [mapM_buckets_ok _ N hmem]

theorem lookupGrouped_map (bs : List (PyVal × List PyVal))
    (f : List PyVal → List PyVal) (q : PyVal) :
    lookupGrouped (bs.map fun kv => (kv.1, f kv.2)) q = (lookupGrouped bs q).map f := by
  induction bs with
  | nil => rfl
  | cons kv t ih =>
    rw [List.map_cons, lookupGrouped_cons, lookupGrouped_cons]
    by_cases h : PyVal.eqKey kv.1 q
    · simp [h]
    · simp only [Bool.not_eq_true] at h
      simp [h, ih]

/-- **C4 counterexample** — unparseable timestamps do *not* sort as the
earliest possible instant: they get the key `0.0`, the Unix epoch.  A record
dated 1960 parses to a strictly negative key and therefore sorts *before* an
unparseable record of the same instrument, while the claim would place the
unparseable record first. -/
theorem claim_C4_counterexample :
    ((PromptBuilder.group_history_by_symbol (.list hist2) 10).toOption.bind
      fun out => (lookupGrouped out (.str "A")).map (List.map tsStr)) =
      some ["1960-01-01T00:00:00", "not-a-date"] ∧
    Iso.parseIso "1960-01-01T00:00:00" = some (-315619200) ∧
    ((-315619200 : ℚ) < 0) ∧
    Iso.parseIso "not-a-date" = Option.none ∧
    tsVal (PyVal.dict [("symbol", .str "A"), ("timestamp", .str "not-a-date")]) = 0 := by
  refine ⟨by decide, by decide, by norm_num, by decide, by decide⟩

/-- **C4 (amended)** — as the claim, except that unparseable timestamps sort
with the key `0.0` (the Unix epoch), not as the earliest possible instant
(records parsing to pre-1970 instants sort before them).  For every flat
decision-history list of well-formed records and window size `N`:
`_group_history_by_symbol` succeeds; the sort is an ascending-by-key
permutation of the input; for every instrument string `s` the output bucket
is exactly the cleaned trailing-`N` window of the timestamp-sorted records
with that instrument; every bucket has at most `N` records, only truthy
instrument keys (records lacking an instrument identifier are dropped), and
is ordered oldest to newest; and in particular 15 records of one instrument
handed over newest-first with a window of 10 yield exactly the last 10 in
ascending timestamp order. -/
theorem claim_C4_amended (recs : List PyVal) (N : ℕ)
    (hWF : ∀ r ∈ recs, WFRecord r = true) :
    ∃ out, PromptBuilder.group_history_by_symbol (.list recs) N = .ok out ∧
      ((sortedByTs recs).Perm recs) ∧
      ((sortedByTs recs).Pairwise fun a b => tsVal a ≤ tsVal b) ∧
      (∀ s : String, lookupGrouped out (.str s) =
        (match (sortedByTs recs).filter
            (fun r => PyVal.eqKey (symOf r) (.str s) && (symOf r).truthy) with
          | [] => Option.none
          | fs => some ((fs.drop (fs.length - N)).map cleanVal))) ∧
      (∀ kv ∈ out, kv.2.length ≤ N) ∧
      (∀ kv ∈ out, kv.1.truthy = true) ∧
      (∀ kv ∈ out, kv.2.Pairwise fun a b => tsVal a ≤ tsVal b) ∧
      (((PromptBuilder.group_history_by_symbol (.list hist15) 10).toOption.bind
          fun out15 => (lookupGrouped out15 (.str "BTCUSDT")).map (List.map tsStr)) =
        some ["2024-01-06T00:00:00", "2024-01-07T00:00:00", "2024-01-08T00:00:00",
          "2024-01-09T00:00:00", "2024-01-10T00:00:00", "2024-01-11T00:00:00",
          "2024-01-12T00:00:00", "2024-01-13T00:00:00", "2024-01-14T00:00:00",
          "2024-01-15T00:00:00"]) := by
  refine ⟨_, group_history_ok recs N hWF, sortedByTs_perm recs, sortedByTs_pairwise recs,
    ?_, ?_, ?_, ?_, by decide⟩
  · intro s
    rw [lookupGrouped_map ((sortedByTs recs).foldl bucketStep [])
      (fun l => (l.drop (l.length - N)).map cleanVal) (.str s)]
    rw [foldl_bucketStep_lookup (sortedByTs recs) s []]
    rw [show lookupGrouped [] (.str s) = Option.none from rfl]
    cases hf : (sortedByTs recs).filter
        (fun r => PyVal.eqKey (symOf r) (.str s) && (symOf r).truthy) with
    | nil => rfl
    | cons a t => rfl
  · intro kv hkv
    rw [List.mem_map] at hkv
    obtain ⟨kv0, _, rfl⟩ := hkv
    simp only [List.length_map, List.length_drop]
    omega
  · intro kv hkv
    rw [List.mem_map] at hkv
    obtain ⟨kv0, h0, rfl⟩ := hkv
    exact foldl_bucketStep_keys_truthy (sortedByTs recs) []
      (by intro kv2 h2; simp at h2) kv0 h0
  · intro kv hkv
    rw [List.mem_map] at hkv
    obtain ⟨kv0, h0, rfl⟩ := hkv
    have hsub : kv0.2.Sublist (sortedByTs recs) := by
      have := foldl_bucketStep_sublist (sortedByTs recs) [] []
        (by intro kv2 h2; simp at h2) kv0 h0
      simpa using this
    have hpw : kv0.2.Pairwise fun a b => tsVal a ≤ tsVal b :=
      (sortedByTs_pairwise recs).sublist hsub
    have hdrop : (kv0.2.drop (kv0.2.length - N)).Pairwise fun a b => tsVal a ≤ tsVal b :=
      hpw.sublist (List.drop_sublist _ _)
    rw [List.pairwise_map]
    exact hdrop.imp fun h => by simpa [tsVal_cleanVal] using h

/-- Witness for C4 on the 15-record fixture. -/
theorem claim_C4_witness :
    (∀ r ∈ hist15, WFRecord r = true) ∧
    ∃ out, PromptBuilder.group_history_by_symbol (.list hist15) 10 = .ok out ∧
      (∀ kv ∈ out, kv.2.length ≤ 10) ∧
      (∀ kv ∈ out, kv.2.Pairwise fun a b => tsVal a ≤ tsVal b) := by
  refine ⟨by decide, ?_⟩
  obtain ⟨out, h1, -, -, -, h5, -, h7, -⟩ := claim_C4_amended hist15 10 (by decide)
  exact ⟨out, h1, h5, h7⟩

/-- **C8** — the KDJ recurrence seeded at `K = D = 50` has 50 as a fixed
point: if every RSV sample of the dataframe is 50, every emitted `k`, `d`
and `j` equals 50. -/
theorem claim_C8_kdj_fixed_point (df : List Bar) (n : ℕ)
    (h : ∀ x ∈ PromptBuilder.rsvSeries df n, x = 50) :
    ∀ r ∈ PromptBuilder.compute_kdj_series df n, r.k = 50 ∧ r.d = 50 ∧ r.j = 50 := by
  have fold50 : ∀ (l : List ℚ), (∀ x ∈ l, x = 50) →
      ∀ t ∈ PromptBuilder.kdjFold 50 50 l, t = (50, 50, 50) := by
    intro l
    induction l with
    | nil => intro _ t ht; simp [PromptBuilder.kdjFold] at ht
    | cons v rest ih =>
      intro hall t ht
      have hv : v = 50 := hall v (by simp)
      subst hv
      have hk : (2/3 : ℚ) * 50 + 1/3 * 50 = 50 := by norm_num
      simp only [PromptBuilder.kdjFold, hk, List.mem_cons] at ht
      rcases ht with rfl | ht
      · norm_num
      · exact ih (fun x hx => hall x (by simp [hx])) t ht
  intro r hr
  unfold PromptBuilder.compute_kdj_series at hr
  by_cases hlen : df.length < n
  · simp [hlen] at hr
  · simp only [hlen, if_false, List.mem_map] at hr
    obtain ⟨t, ht, rfl⟩ := hr
    have := fold50 _ h t (List.mem_of_mem_drop ht)
    subst this
    refine ⟨?_, ?_, ?_⟩ <;> decide

/-- Witness for C8: nine constant bars have RSV constantly 50 (the zero-range
`0/0` is NaN, filled with 50), and all emitted samples are `(50, 50, 50)`. -/
theorem claim_C8_witness :
    (∀ x ∈ PromptBuilder.rsvSeries (List.replicate 9 ⟨100, 100, 100, 100, 1⟩) 9, x = 50) ∧
    ∀ r ∈ PromptBuilder.compute_kdj_series (List.replicate 9 ⟨100, 100, 100, 100, 1⟩) 9,
      r.k = 50 ∧ r.d = 50 ∧ r.j = 50 :=
  ⟨by decide, claim_C8_kdj_fixed_point _ 9 (by decide)⟩

end TradingBot
namespace TradingBot

open Pandas PromptBuilder

theorem get_dict (xs : List (String × PyVal)) (k : String) (d : PyVal) :
    (PyVal.dict xs).get k d = .ok ((xs.lookup k).getD d) := rfl

theorem _get_dict_some (xs : List (String × PyVal)) (k : String) (d : PyVal) (m : ℤ) :
    _get (.dict xs) k d (some m) = .ok (_round ((xs.lookup k).getD d) m) := rfl

theorem group_history_none (N : ℕ) :
    group_history_by_symbol .none N = .ok [] := rfl

theorem except_pure_bind {α β : Type} (a : α) (f : α → Except String β) :
    (bind (pure a) f : Except String β) = f a := rfl

theorem WFPosition_parts {xs : List (String × PyVal)}
    (h : WFPosition (.dict xs) = true) :
    notDf (getKey (.dict xs) "side") = true ∧
    notDf (getKey (.dict xs) "updateTime") = true := by
  simp only [WFPosition, Bool.and_eq_true] at h
  exact ⟨h.1, h.2⟩

theorem symbol_obj_side (pb : PB) (sq : ℚ → ℚ) (symbol : String)
    (xs : List (String × PyVal)) (hWF : WFPosition (.dict xs) = true)
    (hne : xs ≠ []) (hside : (getKey (.dict xs) "side").truthy = false) :
    ∃ v, build_symbol_obj pb sq [] symbol (.dict [("position", .dict xs)]) = .ok v ∧
      getKey (getKey v "position") "side" =
        .str (if 0 < (to_float (getKey (.dict xs) "positionAmt") (.fin 0)).toQ
          then "LONG" else "SHORT") := by
  have h1 : (PyVal.dict xs).truthyE = .ok true := by
    cases xs with
    | nil => exact absurd rfl hne
    | cons a t => rfl
  have h2 : ((xs.lookup "side").getD PyVal.none).truthyE = .ok false := by
    have h := truthyE_notDf _ (WFPosition_parts hWF).1
    rw [hside] at h
    exact h
  have h3 : ((xs.lookup "updateTime").getD PyVal.none).truthyE =
      .ok ((xs.lookup "updateTime").getD PyVal.none).truthy :=
    truthyE_notDf _ (WFPosition_parts hWF).2
  unfold build_symbol_obj
  simp only [get_dict, _get_dict_some, except_bind_ok, except_pure_bind,
    h1, h2, h3,
    show PyVal.truthyE (.dict []) = .ok false from rfl,
    show PyVal.truthyE .none = .ok false from rfl,
    show (List.lookup "market_data" [("position", PyVal.dict xs)]).getD (PyVal.dict []) =
      PyVal.dict [] from rfl,
    show (List.lookup "position" [("position", PyVal.dict xs)]).getD PyVal.none =
      PyVal.dict xs from rfl,
    Bool.false_eq_true, Bool.true_eq_false, if_false, if_true, ite_false, ite_true,
    eq_self_iff_true]
  refine ⟨_, rfl, ?_⟩
  rfl

end TradingBot
namespace TradingBot

open Pandas PromptBuilder

/-- **C10** — in the assembled position object, when the snapshot's `side`
field is missing or falsy the side is inferred from the amount: `"LONG"`
iff `positionAmt` coerces to a strictly positive float, `"SHORT"` in every
other case (zero, negative or unparseable amounts included). -/
theorem claim_C10 (pb : PB) (sq : ℚ → ℚ) (now symbol : String)
    (xs : List (String × PyVal)) (hWF : WFPosition (.dict xs) = true)
    (hne : xs ≠ []) (hside : (getKey (.dict xs) "side").truthy = false) :
    ∃ p, build_multi_symbol_analysis_payload pb sq now
        (.dict [(symbol, .dict [("position", .dict xs)])]) .none .none = .ok p ∧
      getKey (getKey ((asList (getKey p "symbols")).getD 0 .none) "position") "side" =
        .str (if 0 < (to_float (getKey (.dict xs) "positionAmt") (.fin 0)).toQ
          then "LONG" else "SHORT") := by
  obtain ⟨v, hv, hvs⟩ := symbol_obj_side pb sq symbol xs hWF hne hside
  unfold build_multi_symbol_analysis_payload
  simp only [except_bind_ok, except_pure_bind, group_history_none,
    show PyVal.truthyE .none = .ok false from rfl,
    Bool.false_eq_true, if_false, ite_false,
    List.mapM_cons, List.mapM_nil]
  rw [hv]
  simp only [except_bind_ok, except_pure_bind]
  refine ⟨_, rfl, ?_⟩
  exact hvs

end TradingBot
namespace TradingBot

open Pandas PromptBuilder

theorem claim_C10_witness :
    WFPosition (.dict [("positionAmt", PyVal.str "abc")]) = true ∧
    (getKey (.dict [("positionAmt", PyVal.str "abc")]) "side").truthy = false ∧
    ∃ p, build_multi_symbol_analysis_payload ⟨[]⟩ id "t"
        (.dict [("BTCUSDT", .dict [("position",
          .dict [("positionAmt", PyVal.str "abc")])])]) .none .none = .ok p ∧
      getKey (getKey ((asList (getKey p "symbols")).getD 0 .none) "position") "side" =
        .str "SHORT" := by
  refine ⟨by decide, by decide, ?_⟩
  have h := claim_C10 ⟨[]⟩ id "t" "BTCUSDT" [("positionAmt", PyVal.str "abc")]
    (by decide) (List.cons_ne_nil _ _) (by decide)
  exact h.imp fun p hp => ⟨hp.1, by rw [hp.2]; rfl⟩

end TradingBot
namespace TradingBot

open Pandas PromptBuilder

theorem foldlM_str_ok {α β : Type} (step : β → α → Except String β) (l : List α)
    (h : ∀ acc a, a ∈ l → ∃ r, step acc a = .ok r) :
    ∀ init, ∃ r, l.foldlM step init = .ok r := by
  induction l with
  | nil => intro init; exact ⟨init, rfl⟩
  | cons a t ih =>
    intro init
    obtain ⟨r, hr⟩ := h init a (List.mem_cons_self a t)
    rw [List.foldlM_cons, hr, except_bind_ok]
    exact ih (fun acc x hx => h acc x (List.mem_cons_of_mem a hx)) r

theorem mapM_str_ok {α β : Type} (f : α → Except String β) (l : List α)
    (h : ∀ a ∈ l, ∃ b, f a = .ok b) : ∃ bs, l.mapM f = .ok bs := by
  induction l with
  | nil => exact ⟨[], rfl⟩
  | cons a t ih =>
    obtain ⟨b, hb⟩ := h a (List.mem_cons_self a t)
    obtain ⟨bs, hbs⟩ := ih fun x hx => h x (List.mem_cons_of_mem a hx)
    rw [List.mapM_cons, hb, except_bind_ok, hbs, except_bind_ok]
    exact ⟨b :: bs, rfl⟩

theorem lookup_pair_mem {β : Type} {l : List (String × β)} {k : String} {v : β} :
    l.lookup k = some v → ∃ a, (a, v) ∈ l := by
  induction l with
  | nil => intro h; simp [List.lookup] at h
  | cons p t ih =>
    intro h
    obtain ⟨a, b⟩ := p
    rw [List.lookup] at h
    by_cases hk : (k == a) = true
    · rw [hk] at h
      exact ⟨a, by simp_all⟩
    · rw [Bool.not_eq_true] at hk
      rw [hk] at h
      obtain ⟨a', ha'⟩ := ih h
      exact ⟨a', List.mem_cons_of_mem _ ha'⟩

theorem WFDictOrFalsy_guard {v : PyVal} (h : WFDictOrFalsy v = true) :
    v.truthyE = .ok v.truthy ∧
    ∃ ys, (if v.truthy = true then v else .dict []) = .dict ys := by
  cases v with
  | dict xs =>
    refine ⟨rfl, ?_⟩
    by_cases hx : PyVal.truthy (.dict xs) = true
    · exact ⟨xs, by rw [if_pos hx]⟩
    · exact ⟨[], by rw [if_neg hx]⟩
  | pydf rows => simp [WFDictOrFalsy] at h
  | none => exact ⟨rfl, ⟨[], rfl⟩⟩
  | bool b => simp only [WFDictOrFalsy, Bool.not_eq_true'] at h; exact ⟨rfl, ⟨[], by rw [h]; rfl⟩⟩
  | int n => simp only [WFDictOrFalsy, Bool.not_eq_true'] at h; exact ⟨rfl, ⟨[], by rw [h]; rfl⟩⟩
  | float f => simp only [WFDictOrFalsy, Bool.not_eq_true'] at h; exact ⟨rfl, ⟨[], by rw [h]; rfl⟩⟩
  | str s => simp only [WFDictOrFalsy, Bool.not_eq_true'] at h; exact ⟨rfl, ⟨[], by rw [h]; rfl⟩⟩
  | list xs => simp only [WFDictOrFalsy, Bool.not_eq_true'] at h; exact ⟨rfl, ⟨[], by rw [h]; rfl⟩⟩

end TradingBot
namespace TradingBot

open Pandas PromptBuilder

theorem WFMulti_guard {v : PyVal} (h : WFMulti v = true) :
    v.truthyE = .ok v.truthy ∧
    ∃ ys, (if v.truthy = true then v else .dict []) = .dict ys ∧
      ∀ kv ∈ ys, WFInterval kv.2 = true := by
  cases v with
  | dict xs =>
    refine ⟨rfl, ?_⟩
    by_cases hx : PyVal.truthy (.dict xs) = true
    · refine ⟨xs, by rw [if_pos hx], ?_⟩
      simp only [WFMulti, List.all_eq_true] at h
      exact h
    · exact ⟨[], by rw [if_neg hx], by simp⟩
  | pydf rows => simp [WFMulti] at h
  | none => exact ⟨rfl, ⟨[], rfl, by simp⟩⟩
  | bool b => simp only [WFMulti, Bool.not_eq_true'] at h; exact ⟨rfl, ⟨[], by rw [h]; rfl, by simp⟩⟩
  | int n => simp only [WFMulti, Bool.not_eq_true'] at h; exact ⟨rfl, ⟨[], by rw [h]; rfl, by simp⟩⟩
  | float f => simp only [WFMulti, Bool.not_eq_true'] at h; exact ⟨rfl, ⟨[], by rw [h]; rfl, by simp⟩⟩
  | str s => simp only [WFMulti, Bool.not_eq_true'] at h; exact ⟨rfl, ⟨[], by rw [h]; rfl, by simp⟩⟩
  | list xs => simp only [WFMulti, Bool.not_eq_true'] at h; exact ⟨rfl, ⟨[], by rw [h]; rfl, by simp⟩⟩

theorem WFMarketData_guard {v : PyVal} (h : WFMarketData v = true) :
    v.truthyE = .ok v.truthy ∧
    ∃ ys, (if v.truthy = true then v else .dict []) = .dict ys ∧
      WFDictOrFalsy ((ys.lookup "realtime").getD .none) = true ∧
      WFMulti ((ys.lookup "multi_timeframe").getD (.dict [])) = true := by
  cases v with
  | dict xs =>
    refine ⟨rfl, ?_⟩
    by_cases hx : PyVal.truthy (.dict xs) = true
    · refine ⟨xs, by rw [if_pos hx], ?_, ?_⟩
      · simp only [WFMarketData, Bool.and_eq_true] at h; exact h.1
      · simp only [WFMarketData, Bool.and_eq_true] at h; exact h.2
    · exact ⟨[], by rw [if_neg hx], by decide, by decide⟩
  | pydf rows => simp [WFMarketData] at h
  | none => exact ⟨rfl, ⟨[], rfl, by decide, by decide⟩⟩
  | bool b => simp only [WFMarketData, Bool.not_eq_true'] at h; exact ⟨rfl, ⟨[], by rw [h]; rfl, by decide, by decide⟩⟩
  | int n => simp only [WFMarketData, Bool.not_eq_true'] at h; exact ⟨rfl, ⟨[], by rw [h]; rfl, by decide, by decide⟩⟩
  | float f => simp only [WFMarketData, Bool.not_eq_true'] at h; exact ⟨rfl, ⟨[], by rw [h]; rfl, by decide, by decide⟩⟩
  | str s => simp only [WFMarketData, Bool.not_eq_true'] at h; exact ⟨rfl, ⟨[], by rw [h]; rfl, by decide, by decide⟩⟩
  | list xs => simp only [WFMarketData, Bool.not_eq_true'] at h; exact ⟨rfl, ⟨[], by rw [h]; rfl, by decide, by decide⟩⟩

theorem WFPosition_guard {v : PyVal} (h : WFPosition v = true) :
    v.truthyE = .ok v.truthy ∧ (v.truthy = true → ∃ ys, v = .dict ys ∧
      notDf ((ys.lookup "side").getD .none) = true ∧
      notDf ((ys.lookup "updateTime").getD .none) = true) := by
  cases v with
  | dict xs =>
    refine ⟨rfl, fun _ => ⟨xs, rfl, ?_, ?_⟩⟩
    · simp only [WFPosition, Bool.and_eq_true] at h; exact h.1
    · simp only [WFPosition, Bool.and_eq_true] at h; exact h.2
  | pydf rows => simp [WFPosition] at h
  | none => exact ⟨rfl, by simp [PyVal.truthy]⟩
  | bool b => simp only [WFPosition, Bool.not_eq_true'] at h; exact ⟨rfl, by rw [h]; simp⟩
  | int n => simp only [WFPosition, Bool.not_eq_true'] at h; exact ⟨rfl, by rw [h]; simp⟩
  | float f => simp only [WFPosition, Bool.not_eq_true'] at h; exact ⟨rfl, by rw [h]; simp⟩
  | str s => simp only [WFPosition, Bool.not_eq_true'] at h; exact ⟨rfl, by rw [h]; simp⟩
  | list xs => simp only [WFPosition, Bool.not_eq_true'] at h; exact ⟨rfl, by rw [h]; simp⟩

theorem WFHistory_cases {v : PyVal} (hw : WFHistory v = true) :
    (∃ rs, v = .list rs ∧ ∀ r ∈ rs, WFRecord r = true) ∨
    (notDf v = true ∧ v.truthy = false) := by
  cases v with
  | list rs =>
    left
    refine ⟨rs, rfl, ?_⟩
    simp only [WFHistory, List.all_eq_true] at hw
    exact hw
  | pydf rows => simp [WFHistory] at hw
  | none => right; exact ⟨rfl, rfl⟩
  | bool b => simp only [WFHistory, Bool.not_eq_true'] at hw; right; exact ⟨rfl, hw⟩
  | int n => simp only [WFHistory, Bool.not_eq_true'] at hw; right; exact ⟨rfl, hw⟩
  | float f => simp only [WFHistory, Bool.not_eq_true'] at hw; right; exact ⟨rfl, hw⟩
  | str s => simp only [WFHistory, Bool.not_eq_true'] at hw; right; exact ⟨rfl, hw⟩
  | dict xs => simp only [WFHistory, Bool.not_eq_true'] at hw; right; exact ⟨rfl, hw⟩

theorem group_history_falsy {v : PyVal} (hnd : notDf v = true)
    (ht : v.truthy = false) : group_history_by_symbol v 10 = .ok [] := by
  unfold group_history_by_symbol
  rw [truthyE_notDf v hnd, ht]
  rfl

theorem group_history_wf_ok {v : PyVal} (hw : WFHistory v = true) :
    ∃ g, group_history_by_symbol v 10 = .ok g := by
  rcases WFHistory_cases hw with ⟨rs, rfl, hr⟩ | ⟨hnd, ht⟩
  · exact ⟨_, group_history_ok rs 10 hr⟩
  · exact ⟨[], group_history_falsy hnd ht⟩

end TradingBot
namespace TradingBot

open Pandas PromptBuilder

theorem interval_block_falsy (pb : PB) (sq : ℚ → ℚ) (interval symbol : String)
    {data : PyVal} (hnd : notDf data = true) (ht : data.truthy = false) :
    build_interval_block pb sq interval data symbol = .ok Option.none := by
  unfold build_interval_block
  rw [truthyE_notDf data hnd, ht]
  rfl

theorem WFInterval_truthy_dict {v : PyVal} (h : WFInterval v = true)
    (ht : v.truthy = true) : ∃ xs, v = .dict xs := by
  cases v with
  | dict xs => exact ⟨xs, rfl⟩
  | pydf rows => simp [WFInterval] at h
  | none => simp [PyVal.truthy] at ht
  | bool b => simp only [WFInterval, Bool.not_eq_true'] at h; rw [h] at ht; simp at ht
  | int n => simp only [WFInterval, Bool.not_eq_true'] at h; rw [h] at ht; simp at ht
  | float f => simp only [WFInterval, Bool.not_eq_true'] at h; rw [h] at ht; simp at ht
  | str s => simp only [WFInterval, Bool.not_eq_true'] at h; rw [h] at ht; simp at ht
  | list xs => simp only [WFInterval, Bool.not_eq_true'] at h; rw [h] at ht; simp at ht

theorem WFInterval_parts {xs : List (String × PyVal)}
    (h : WFInterval (.dict xs) = true) :
    WFDictOrFalsy ((xs.lookup "indicators").getD (.dict [])) = true ∧
    WFDataframe ((xs.lookup "dataframe").getD .none) = true := by
  simp only [WFInterval, Bool.and_eq_true] at h
  refine ⟨?_, h.2⟩
  have h1 := h.1
  cases hx : (xs.lookup "indicators").getD (.dict []) <;> simp_all [WFDictOrFalsy]

theorem WFDataframe_cases {v : PyVal} (h : WFDataframe v = true) :
    v = .none ∨ ∃ rows, v = .pydf rows := by
  cases v <;> simp_all [WFDataframe]

theorem WFInterval_notDf {v : PyVal} (h : WFInterval v = true) :
    notDf v = true := by
  cases v <;> simp_all [WFInterval, notDf]

theorem build_interval_block_ok (pb : PB) (sq : ℚ → ℚ) (interval symbol : String)
    (data : PyVal) (h : WFInterval data = true) :
    ∃ b, build_interval_block pb sq interval data symbol = .ok b := by
  by_cases ht : data.truthy = true
  · obtain ⟨xs, rfl⟩ := WFInterval_truthy_dict h ht
    obtain ⟨hind, hdf⟩ := WFInterval_parts h
    obtain ⟨hiE, ys, hys⟩ := WFDictOrFalsy_guard hind
    rcases WFDataframe_cases hdf with hdn | ⟨rows, hdr⟩
    · unfold build_interval_block
      simp only [show PyVal.truthyE (.dict xs) = .ok true from by
          rw [truthyE_notDf (.dict xs) rfl, ht],
        except_bind_ok, Bool.not_true, Bool.false_eq_true, if_false, get_dict,
        hiE, hys, hdn]
      exact ⟨_, rfl⟩
    · unfold build_interval_block
      simp only [show PyVal.truthyE (.dict xs) = .ok true from by
          rw [truthyE_notDf (.dict xs) rfl, ht],
        except_bind_ok, Bool.not_true, Bool.false_eq_true, if_false, get_dict,
        hiE, hys, hdr]
      exact ⟨_, rfl⟩
  · exact ⟨Option.none,
      interval_block_falsy pb sq interval symbol (WFInterval_notDf h)
        (Bool.not_eq_true _ ▸ ht)⟩

end TradingBot
namespace TradingBot

open Pandas PromptBuilder

theorem intervalStep_ok (pb : PB) (sq : ℚ → ℚ) (symbol : String) (funding : PF)
    (ys : List (String × PyVal)) (hys : ∀ kv ∈ ys, WFInterval kv.2 = true)
    (acc : List PyVal) (interval : String) :
    ∃ r, intervalStep pb sq symbol funding (.dict ys) acc interval = .ok r := by
  have hd0 : WFInterval ((ys.lookup interval).getD .none) = true := by
    cases hl : ys.lookup interval with
    | none => decide
    | some v =>
      obtain ⟨a, ha⟩ := lookup_pair_mem hl
      exact hys (a, v) ha
  have hdEE := truthyE_notDf _ (WFInterval_notDf hd0)
  have hWFd : WFInterval (if ((ys.lookup interval).getD .none).truthy = true
      then (ys.lookup interval).getD .none else .dict []) = true := by
    by_cases hb : ((ys.lookup interval).getD .none).truthy = true
    · rw [if_pos hb]; exact hd0
    · rw [if_neg hb]; decide
  obtain ⟨blk, hblk⟩ := build_interval_block_ok pb sq interval symbol _ hWFd
  unfold intervalStep
  simp only [show pyContains (.dict ys) (.str interval) =
      .ok (ys.any fun kv => PyVal.eqKey (.str kv.1) (.str interval)) from rfl,
    except_bind_ok, get_dict, hdEE, hblk]
  cases hc : (ys.any fun kv => PyVal.eqKey (.str kv.1) (.str interval)) with
  | false => exact ⟨acc, by simp [hc]; rfl⟩
  | true =>
    simp only [hc, Bool.not_true, Bool.false_eq_true, if_false]
    cases blk with
    | none => exact ⟨acc, rfl⟩
    | some block =>
      cases hbt : block.truthy with
      | true => exact ⟨_, by simp [hbt]; rfl⟩
      | false => exact ⟨acc, by simp [hbt]; rfl⟩

end TradingBot
namespace TradingBot

open Pandas PromptBuilder

theorem if_pure {α : Type} (c : Prop) [Decidable c] (a b : α) :
    (if c then (pure a : Except String α) else pure b) = pure (if c then a else b) := by
  by_cases hc : c
  · rw [if_pos hc, if_pos hc]
  · rw [if_neg hc, if_neg hc]

theorem if_pure_bind {α β : Type} (c : Prop) [Decidable c] (a b : α)
    (f : α → Except String β) :
    (bind (if c then pure a else pure b) f : Except String β) =
      f (if c then a else b) := by
  by_cases hc : c
  · rw [if_pos hc, if_pos hc]; rfl
  · rw [if_neg hc, if_neg hc]; rfl

theorem WFDictOrFalsy_truthy_dict {v : PyVal} (h : WFDictOrFalsy v = true)
    (ht : v.truthy = true) : ∃ xs, v = .dict xs := by
  cases v with
  | dict xs => exact ⟨xs, rfl⟩
  | pydf rows => simp [WFDictOrFalsy] at h
  | none => simp [PyVal.truthy] at ht
  | bool b => simp only [WFDictOrFalsy, Bool.not_eq_true'] at h; rw [h] at ht; simp at ht
  | int n => simp only [WFDictOrFalsy, Bool.not_eq_true'] at h; rw [h] at ht; simp at ht
  | float f => simp only [WFDictOrFalsy, Bool.not_eq_true'] at h; rw [h] at ht; simp at ht
  | str s => simp only [WFDictOrFalsy, Bool.not_eq_true'] at h; rw [h] at ht; simp at ht
  | list xs => simp only [WFDictOrFalsy, Bool.not_eq_true'] at h; rw [h] at ht; simp at ht

theorem build_symbol_obj_ok (pb : PB) (sq : ℚ → ℚ)
    (grouped : List (PyVal × List PyVal)) (symbol : String) (sd : PyVal)
    (h : WFSymbolData sd = true) :
    ∃ v, build_symbol_obj pb sq grouped symbol sd = .ok v := by
  obtain ⟨xs, rfl⟩ : ∃ xs, sd = .dict xs := by
    cases sd <;> simp_all [WFSymbolData]
  have hparts : WFMarketData ((xs.lookup "market_data").getD (.dict [])) = true ∧
      WFPosition ((xs.lookup "position").getD .none) = true := by
    simpa [WFSymbolData, Bool.and_eq_true] using h
  obtain ⟨hmd, hpos⟩ := hparts
  obtain ⟨hmdE, ms, hms, hrt, hmulti⟩ := WFMarketData_guard hmd
  obtain ⟨hrtE, rs, hrs⟩ := WFDictOrFalsy_guard hrt
  obtain ⟨hposE, hposT⟩ := WFPosition_guard hpos
  obtain ⟨hmultiE, is_, his, hisWF⟩ := WFMulti_guard hmulti
  obtain ⟨bs, hbs⟩ := foldlM_str_ok
    (intervalStep pb sq symbol
      (_round ((rs.lookup "funding_rate").getD (.float (.fin 0))) 6) (.dict is_))
    default_intervals
    (fun acc a _ => intervalStep_ok pb sq symbol _ is_ hisWF acc a) []
  cases hpt : ((xs.lookup "position").getD .none).truthy with
  | false =>
    unfold build_symbol_obj
    simp only [get_dict, _get_dict_some, except_bind_ok, except_pure_bind,
      hmdE, hms, hrtE, hrs, hposE, hpt, hmultiE, his, hbs,
      Bool.false_eq_true, Bool.true_eq_false, if_false, if_true, ite_false, ite_true,
      eq_self_iff_true]
    exact ⟨_, rfl⟩
  | true =>
    obtain ⟨ps, hps, hside, hut⟩ := hposT hpt
    have hsideE := truthyE_notDf _ hside
    have hutE := truthyE_notDf _ hut
    have hpt' : (PyVal.dict ps).truthy = true := hps ▸ hpt
    unfold build_symbol_obj
    simp only [get_dict, _get_dict_some, except_bind_ok, except_pure_bind,
      hmdE, hms, hrtE, hrs, hposE, hpt, hps, hsideE, hutE, hmultiE, his, hbs,
      show (PyVal.dict ps).truthyE = .ok true from by
        rw [truthyE_notDf (.dict ps) rfl, hpt'],
      if_pure_bind, if_pure,
      Bool.false_eq_true, Bool.true_eq_false, if_false, if_true, ite_false, ite_true,
      eq_self_iff_true]
    exact ⟨_, rfl⟩

end TradingBot
namespace TradingBot

open Pandas PromptBuilder

/-- **C2 (counterexample)** — the claim says the assembler returns a payload
for *every* `all_symbols_data` mapping and never raises; but a mapping whose
per-symbol entry is `None` makes `symbol_data.get("market_data", {})` raise
`AttributeError`, which propagates to the caller. -/
theorem claim_C2_counterexample :
    errOf (build_multi_symbol_analysis_payload ⟨[]⟩ id "t"
      (.dict [("BTCUSDT", PyVal.none)]) .none .none) = some "AttributeError" := by
  decide

/-- **C2 (amended)** — the no-raise guarantee holds on the well-formed input
region: every symbol entry a dict with a dict-or-falsy `market_data` tree and
a position whose `side`/`updateTime` are not DataFrames, an account summary
that is a dict or falsy, and a decision history that is a list of processable
records or falsy.  On that region the assembler always returns a payload. -/
theorem claim_C2_amended (pb : PB) (sq : ℚ → ℚ) (now : String)
    (a acc hist : PyVal) (ha : WFAllSymbols a = true)
    (hacc : WFDictOrFalsy acc = true) (hh : WFHistory hist = true) :
    ∃ p, build_multi_symbol_analysis_payload pb sq now a acc hist = .ok p := by
  obtain ⟨axs, rfl⟩ : ∃ xs, a = .dict xs := by
    cases a <;> simp_all [WFAllSymbols]
  obtain ⟨haccE, as_, has⟩ := WFDictOrFalsy_guard hacc
  obtain ⟨g, hg⟩ := group_history_wf_ok hh
  obtain ⟨syms, hsyms⟩ := mapM_str_ok
    (fun kv : String × PyVal => build_symbol_obj pb sq g kv.1 kv.2) axs
    (fun kv hkv => build_symbol_obj_ok pb sq g kv.1 kv.2 (by
      simp only [WFAllSymbols, List.all_eq_true] at ha
      exact ha kv hkv))
  cases hat : acc.truthy with
  | false =>
    unfold build_multi_symbol_analysis_payload
    simp only [haccE, hat, except_bind_ok, except_pure_bind, hg, hsyms,
      Bool.false_eq_true, Bool.true_eq_false, if_false, if_true, ite_false, ite_true,
      eq_self_iff_true]
    exact ⟨_, rfl⟩
  | true =>
    obtain ⟨ys, rfl⟩ := WFDictOrFalsy_truthy_dict hacc hat
    unfold build_multi_symbol_analysis_payload
    simp only [haccE, hat, get_dict, _get_dict_some, except_bind_ok,
      except_pure_bind, hg, hsyms,
      Bool.false_eq_true, Bool.true_eq_false, if_false, if_true, ite_false, ite_true,
      eq_self_iff_true]
    exact ⟨_, rfl⟩

theorem claim_C2_witness :
    WFAllSymbols (.dict [("BTCUSDT", .dict [("position",
        .dict [("side", PyVal.str "LONG")]), ("market_data", .dict [])])]) = true ∧
    WFDictOrFalsy (.dict [("equity", PyVal.float (.fin 100))]) = true ∧
    WFHistory (.list []) = true ∧
    ∃ p, build_multi_symbol_analysis_payload ⟨[]⟩ id "t"
      (.dict [("BTCUSDT", .dict [("position", .dict [("side", PyVal.str "LONG")]),
        ("market_data", .dict [])])])
      (.dict [("equity", PyVal.float (.fin 100))]) (.list []) = .ok p :=
  ⟨by decide, by decide, by decide,
    claim_C2_amended ⟨[]⟩ id "t" _ _ _ (by decide) (by decide) (by decide)⟩

end TradingBot
